import Mathlib

/-!
Verification development for the stratuscode interactive terminal client
(crates/stratuscode-cli).  The Rust sources are shallowly embedded:

* a Rust `String` (always valid UTF-8) is modelled as a `List Char`; a Rust
  byte index into a string is a `Nat`, and byte arithmetic is done through
  the per-character UTF-8 width `len_utf8`;
* stateful functions on `App` become pure functions `App → App`; remote
  calls issued through the backend client are recorded, in program order,
  in an instrumentation field `calls : List Str` holding the method names;
* external effects (clipboard reads, responses to the remote calls whose
  results the code inspects, the file-system walk of the file indexer) are
  supplied through an explicit environment `Env`;
* `std::time::Instant` fields are dropped (nothing embedded here reads
  them) and a toast is modelled as its message alone.
-/

/-- A Rust string modelled as its list of characters. -/
abbrev Str := List Char

/-- Shorthand turning a Lean string literal into the model type. -/
def str (s : String) : Str := s.toList

/-- UTF-8 byte width of a character, mirroring Rust's char::len_utf8. -/
def len_utf8 (c : Char) : Nat :=
  if c.val < 0x80 then 1
  else if c.val < 0x800 then 2
  else if c.val < 0x10000 then 3
  else 4

/-- Byte length of a string, mirroring Rust's str::len. -/
def byteLen (s : Str) : Nat := (s.map len_utf8).sum

/-- Split a string at a byte index: characters are consumed as long as they
fit entirely below the index, so at a character boundary this is the exact
pair (s[..i], s[i..]) of Rust slices. -/
def splitAtByte : Str → Nat → (Str × Str)
  | [], _ => ([], [])
  | c :: rest, i =>
    if len_utf8 c ≤ i then
      let p := splitAtByte rest (i - len_utf8 c)
      (c :: p.1, p.2)
    else ([], c :: rest)

/-- Rust's str::is_char_boundary: the index is the byte length of some
prefix of whole characters (indices beyond the end are not boundaries). -/
def isCharBoundary (s : Str) (i : Nat) : Bool :=
  (List.range (s.length + 1)).any (fun k => byteLen (s.take k) == i)

/-- Descend from a byte index to the nearest boundary at or below it,
mirroring the loop of clamp_cursor in input.rs. -/
def clampFrom (s : Str) : Nat → Nat
  | 0 => 0
  | j + 1 => if isCharBoundary s (j + 1) then j + 1 else clampFrom s j

/-- clamp_cursor from input.rs: cap the cursor at the byte length, then
walk down to a character boundary. -/
def clamp_cursor (s : Str) (cursor : Nat) : Nat :=
  clampFrom s (min cursor (byteLen s))

/-- Byte index of the last occurrence of a character, mirroring
str::rfind(char). -/
def rfindChar : Str → Char → Option Nat
  | [], _ => none
  | c :: rest, t =>
    match rfindChar rest t with
    | some j => some (len_utf8 c + j)
    | none => if c = t then some 0 else none

/-- Byte index of the first occurrence of a character, mirroring
str::find(char). -/
def findChar : Str → Char → Option Nat
  | [], _ => none
  | c :: rest, t =>
    if c = t then some 0
    else (findChar rest t).map (fun j => len_utf8 c + j)

/-- Rust's str::to_lowercase, restricted to the ASCII mapping; every string
this repository lowercases is ASCII, where the two functions agree. -/
def toLower (s : Str) : Str := s.map Char.toLower

/-- Whitespace as trimmed by Rust's str::trim on the ASCII range. -/
def isWs (c : Char) : Bool := c = ' ' || c = '\t' || c = '\n' || c = '\r'

/-- Rust's str::trim_start (ASCII whitespace). -/
def trimStart (s : Str) : Str := s.dropWhile isWs

/-- Rust's str::trim_end (ASCII whitespace). -/
def trimEnd (s : Str) : Str := (s.reverse.dropWhile isWs).reverse

/-- Rust's str::trim (ASCII whitespace). -/
def trim (s : Str) : Str := trimEnd (trimStart s)

-- Sentinel characters from constants.rs.

/-- Paste-region start sentinel, constants.rs (U+FFF0). -/
def PASTE_START : Char := Char.ofNat 0xFFF0

/-- Paste-region end sentinel, constants.rs (U+FFF1). -/
def PASTE_END : Char := Char.ofNat 0xFFF1

/-- Image-attachment sentinel, constants.rs (U+FFFC). -/
def IMAGE_MARKER : Char := Char.ofNat 0xFFFC

/-- constants.rs: line-count threshold for the collapsed paste display. -/
def PASTE_LINE_THRESHOLD : Nat := 3

/-- constants.rs: character threshold for the collapsed paste display. -/
def PASTE_CHAR_THRESHOLD : Nat := 150

/-- Number of lines seen by Rust's str::lines (ignoring CRLF trimming,
which no embedded input contains). -/
def rustLinesCount (s : Str) : Nat :=
  if s = [] then 0
  else s.count '\n' + (if s.getLast? = some '\n' then 0 else 1)

-- Sanity checks of the byte-level model.
example : len_utf8 'a' = 1 := by decide
example : len_utf8 PASTE_START = 3 := by decide
example : len_utf8 PASTE_END = 3 := by decide
example : len_utf8 IMAGE_MARKER = 3 := by decide
example : byteLen (str "aé") = 3 := by decide
example : splitAtByte (str "abc") 1 = (str "a", str "bc") := by decide
example : clamp_cursor (str "aé") 2 = 1 := by decide
example : clamp_cursor (str "aé") 99 = 3 := by decide
example : isCharBoundary (str "aé") 3 = true := by decide
example : isCharBoundary (str "aé") 2 = false := by decide
example : rfindChar (str "abab") 'a' = some 2 := by decide
example : findChar (str "abab") 'b' = some 1 := by decide
example : trim (str "  hi ") = str "hi" := by decide
example : rustLinesCount (str "hi") = 1 := by decide
example : rustLinesCount (str "a\nb") = 2 := by decide

/-- prev_char_start from input.rs: byte index where the character before
the (clamped) cursor starts. -/
def prev_char_start (value : Str) (cursor : Nat) : Option Nat :=
  let cursor := clamp_cursor value cursor
  if cursor = 0 then none
  else ((splitAtByte value cursor).1.getLast?).map (fun ch => cursor - len_utf8 ch)

/-- char_at from input.rs: the character starting at the (clamped)
cursor. -/
def char_at (value : Str) (cursor : Nat) : Option Char :=
  let cursor := clamp_cursor value cursor
  if byteLen value ≤ cursor then none
  else (splitAtByte value cursor).2.head?

/-- cursor_left from input.rs: step one character left, jumping a whole
paste region when the character stepped over is the end sentinel. -/
def cursor_left (value : Str) (cursor : Nat) : Nat :=
  let cursor := clamp_cursor value cursor
  match prev_char_start value cursor with
  | none => 0
  | some prev =>
    if (splitAtByte value prev).2.head? = some PASTE_END then
      match rfindChar (splitAtByte value prev).1 PASTE_START with
      | some start => start
      | none => prev
    else prev

/-- cursor_right from input.rs: step one character right, jumping a whole
paste region when standing on the start sentinel. -/
def cursor_right (value : Str) (cursor : Nat) : Nat :=
  let cursor := clamp_cursor value cursor
  match char_at value cursor with
  | none => byteLen value
  | some ch =>
    if ch = PASTE_START then
      let start_next := cursor + len_utf8 ch
      match findChar (splitAtByte value start_next).2 PASTE_END with
      | some rel_end => start_next + rel_end + len_utf8 PASTE_END
      | none =>
        if ch = IMAGE_MARKER then cursor + len_utf8 IMAGE_MARKER
        else cursor + len_utf8 ch
    else if ch = IMAGE_MARKER then cursor + len_utf8 IMAGE_MARKER
    else cursor + len_utf8 ch

/-- handle_backspace from input.rs: delete one character before the
cursor, or a whole paste region when the deleted character is the end
sentinel; returns the new string and cursor. -/
def handle_backspace (value : Str) (cursor : Nat) : Option (Str × Nat) :=
  let cursor := clamp_cursor value cursor
  match prev_char_start value cursor with
  | none => none
  | some prev =>
    match (splitAtByte value prev).2.head? with
    | none => none
    | some prev_ch =>
      if prev_ch = PASTE_END then
        match rfindChar (splitAtByte value prev).1 PASTE_START with
        | some start =>
          some ((splitAtByte value start).1 ++ (splitAtByte value cursor).2, start)
        | none =>
          some ((splitAtByte value prev).1 ++ (splitAtByte value cursor).2, prev)
      else if prev_ch = IMAGE_MARKER then
        some ((splitAtByte value prev).1 ++ (splitAtByte value cursor).2, prev)
      else
        some ((splitAtByte value prev).1 ++ (splitAtByte value cursor).2, prev)

-- Sanity checks against the Rust behavior.
example : handle_backspace (str "ab") 2 = some (str "a", 1) := by decide
example : handle_backspace (str "ab") 0 = none := by decide
example :
    handle_backspace ([PASTE_START, 'a', PASTE_END] ++ str "x") 7 =
      some (str "x", 0) := by decide
example : cursor_left ([PASTE_START, 'a', PASTE_END]) 7 = 0 := by decide
example : cursor_right ([PASTE_START, 'a', PASTE_END]) 0 = 7 := by decide
example : prev_char_start (str "aé") 3 = some 1 := by decide

/-- UiMode from app.rs. -/
inductive UiMode
  | normal | commandPalette | fileMention | modelPicker
  | sessionHistory | questionPrompt | planActions | helpAbout
deriving DecidableEq, Repr

/-- CommandItem from app.rs (static strings modelled as Str). -/
structure CommandItem where
  name : Str
  shortcut : Option Str
  description : Str
  action : Str
deriving DecidableEq, Repr

/-- FileResult from app.rs. -/
structure FileResult where
  relative_path : Str
  is_dir : Bool
deriving DecidableEq, Repr

/-- ModelEntry from app.rs. -/
structure ModelEntry where
  id : Str
  name : Str
  free : Option Bool
  provider_key : Option Str
  group : Str
  reasoning : Option Bool
deriving DecidableEq, Repr

/-- SessionInfo from app.rs. -/
structure SessionInfo where
  id : Str
  title : Str
  message_count : Option Nat
  first_message : Option Str
deriving DecidableEq, Repr

/-- TodoItem from app.rs. -/
structure TodoItem where
  id : Str
  content : Str
  status : Str
  priority : Option Str
deriving DecidableEq, Repr

/-- TodoCounts from app.rs. -/
structure TodoCounts where
  pending_count : Nat
  in_progress : Nat
  completed : Nat
  total : Nat
deriving DecidableEq, Repr

/-- QuestionOption from app.rs. -/
structure QuestionOption where
  label : Str
  description : Option Str
deriving DecidableEq, Repr

/-- QuestionState from app.rs. -/
structure QuestionState where
  id : Str
  question : Str
  header : Option Str
  options : List QuestionOption
  allow_multiple : Bool
  allow_custom : Bool
  selected : List Bool
  focused_index : Nat
  custom_input : Str
  custom_active : Bool
deriving DecidableEq, Repr

/-- AttachmentUpload from app.rs. -/
structure AttachmentUpload where
  data : Str
  mime : Str
deriving DecidableEq, Repr

/-- TokenUsage from backend.rs. -/
structure TokenUsage where
  input : Nat
  output : Nat
  context : Option Nat
  model : Option Str
deriving DecidableEq, Repr

/-- Attachment from backend.rs (a timeline-event attachment). -/
structure Attachment where
  type : Str
  mime : Option Str
  line_count : Option Nat
  text : Option Str
  data : Option Str
deriving DecidableEq, Repr

/-- TimelineEvent from backend.rs. -/
structure TimelineEvent where
  id : Str
  session_id : Str
  created_at : Int
  kind : Str
  content : Str
  tokens : Option TokenUsage
  streaming : Option Bool
  tool_call_id : Option Str
  tool_name : Option Str
  status : Option Str
  attachments : Option (List Attachment)
deriving DecidableEq, Repr

/-- ContextUsage from backend.rs. -/
structure ContextUsage where
  used : Nat
  limit : Nat
  percent : Nat
deriving DecidableEq, Repr

/-- ChatState from backend.rs (the messages field, opaque JSON the client
never reads, is dropped). -/
structure ChatState where
  is_loading : Bool
  error : Option Str
  timeline_events : List TimelineEvent
  session_tokens : Option TokenUsage
  context_usage : ContextUsage
  context_status : Option Str
  tokens : TokenUsage
  session_id : Option Str
  plan_exit_proposed : Bool
  agent : Str
  model_override : Option Str
  provider_override : Option Str
  reasoning_effort_override : Option Str
deriving DecidableEq, Repr

/-- ClipboardImageResult from input.rs; the Image payload is the base64
string produced from the clipboard image. -/
inductive ClipboardImageResult
  | image (data : Str) | tooLarge | notAvailable | conversionError
deriving DecidableEq, Repr

/-- App from app.rs.  Timing fields (Instant) are dropped; the toast keeps
only its message.  The fields session_offset, session_rename_active and
session_rename_input are used by input.rs and ui.rs (the app.rs snapshot
omits their declarations) and are modelled from that usage.  calls is an
instrumentation field, not part of the Rust struct: it records, in program
order, the method names of the remote calls issued through the backend
client (both blocking calls and the fire-and-forget calls spawned on
background threads). -/
structure App where
  state : ChatState
  input : Str
  cursor : Nat
  should_quit : Bool
  reasoning_effort : Str
  mode : UiMode
  command_query : Str
  command_selected : Nat
  command_offset : Nat
  file_selected : Nat
  model_query : Str
  model_selected : Nat
  model_offset : Nat
  model_entries : List ModelEntry
  custom_model_mode : Bool
  custom_model_input : Str
  session_list : List SessionInfo
  session_selected : Nat
  session_offset : Nat
  session_rename_active : Bool
  session_rename_input : Str
  history_needs_refresh : Bool
  question : Option QuestionState
  todos : List TodoItem
  todo_counts : TodoCounts
  compact_view : Bool
  scroll_from_bottom : Nat
  dirty : Bool
  toast : Option Str
  project_dir : Str
  pending_gg : Bool
  attachments : List AttachmentUpload
  file_index : List FileResult
  show_splash : Bool
  show_telemetry_details : Bool
  needs_clear : Bool
  timeline_revision : Nat
  timeline_cache_rev : Nat
  timeline_cache_width : Nat
  timeline_cache_compact : Bool
  timeline_cache : List Str
  base_model : Str
  spinner_index : Nat
  todos_expanded : Bool
  todos_request_inflight : Bool
  question_request_inflight : Bool
  auto_scroll : Bool
  reindex_inflight : Bool
  calls : List Str
deriving DecidableEq, Repr

/-- Outcome the environment supplies for the list_todos call inspected by
refresh_todos: Except models call success, the Options model whether each
response field is present and deserializes. -/
structure TodosResp where
  list : Option (List TodoItem)
  counts : Option TodoCounts
deriving DecidableEq, Repr

/-- External effects: the clipboard read of the Ctrl+V arm, the parsed
outcomes of the remote calls whose responses the embedded code inspects,
and the file index the file-system walker would produce.  For list_models,
the outer Option models the presence of the entries field, the inner one
whether it deserializes. -/
structure Env where
  clipboard : ClipboardImageResult
  listSessions : Except Unit (Option (List SessionInfo))
  listModels : Except Unit (Option (Option (List ModelEntry)))
  listTodos : Except Unit TodosResp
  fileIndex : List FileResult
deriving Repr

/-- Key codes relevant to the client (crossterm::event::KeyCode). -/
inductive KeyCode
  | esc | enter | backspace | left | right | up | down
  | pageUp | pageDown | home | endKey | tab
  | char (c : Char)
  | other
deriving DecidableEq, Repr

/-- A key event: code plus the two modifier flags the client inspects. -/
structure KeyEvent where
  code : KeyCode
  ctrl : Bool
  alt : Bool
deriving DecidableEq, Repr

/-- mark_dirty from app.rs. -/
def mark_dirty (s : App) : App := { s with dirty := true }

/-- set_toast from app.rs (the timestamp is dropped). -/
def set_toast (s : App) (msg : Str) : App :=
  mark_dirty { s with toast := some msg }

/-- Record one remote call's method name (instrumentation for
client.call and the spawned fire-and-forget calls). -/
def pushCall (s : App) (method : Str) : App :=
  { s with calls := s.calls ++ [method] }

/-- Rust str::contains(&str): contiguous-substring test. -/
def isSubstr : Str → Str → Bool
  | n, [] => n.isEmpty
  | n, c :: rest => List.isPrefixOf n (c :: rest) || isSubstr n rest

/-- Rust String::cmp: lexicographic byte order, which on valid UTF-8
coincides with lexicographic order of the code points. -/
def strCmp : Str → Str → Ordering
  | [], [] => .eq
  | [], _ :: _ => .lt
  | _ :: _, [] => .gt
  | a :: xs, b :: ys =>
    if a < b then .lt
    else if b < a then .gt
    else strCmp xs ys

/-- Stable insertion: the new element is placed before the first element
it does not compare Greater to, matching Vec::sort_by stability. -/
def insertCmp (cmp : α → α → Ordering) (x : α) : List α → List α
  | [] => [x]
  | y :: ys => if cmp x y = .gt then y :: insertCmp cmp x ys else x :: y :: ys

/-- Stable sort by a comparator, modelling Vec::sort_by (any stable sort
is extensionally equal to it). -/
def sortCmp (cmp : α → α → Ordering) : List α → List α
  | [] => []
  | x :: xs => insertCmp cmp x (sortCmp cmp xs)

/-- commands_list from commands.rs. -/
def commands_list : List CommandItem :=
  [ ⟨str "new", some (str "n"), str "Start a new session", str "session:new"⟩,
    ⟨str "clear", some (str "c"), str "Clear current conversation", str "session:clear"⟩,
    ⟨str "history", some (str "h"), str "View session history", str "session:history"⟩,
    ⟨str "plan", some (str "p"), str "Enter plan mode", str "mode:plan"⟩,
    ⟨str "build", some (str "b"), str "Exit plan mode and start building", str "mode:build"⟩,
    ⟨str "reindex", none, str "Reindex codebase for search", str "tool:reindex"⟩,
    ⟨str "todos", some (str "t"), str "Show todo list", str "tool:todos"⟩,
    ⟨str "revert", some (str "r"), str "Revert files to previous state", str "tool:revert"⟩,
    ⟨str "models", some (str "m"), str "Change AI model", str "settings:model"⟩,
    ⟨str "about", none, str "About StratusCode", str "help:about"⟩ ]

/-- The per-command test used by filter_commands: the lowercased trimmed
query must be a prefix of the name, a substring of the lowercased
description, or a prefix of the shortcut. -/
def commandMatches (c : CommandItem) (q : Str) : Bool :=
  List.isPrefixOf q c.name
    || isSubstr q (toLower c.description)
    || (match c.shortcut with
        | some s => List.isPrefixOf q s
        | none => false)

/-- filter_commands from commands.rs. -/
def filter_commands (commands : List CommandItem) (query : Str) : List CommandItem :=
  if (trim query).isEmpty then commands
  else
    let q := toLower (trim query)
    commands.filter (fun c => commandMatches c q)

/-- parse_command from commands.rs: leading slash, then splitn(2, ' ')
into a lowercased name and an optional argument. -/
def parse_command (input : Str) : Option (CommandItem × Option Str) :=
  if input.head? ≠ some '/' then none
  else
    let trimmed := trim input
    let rest := trimmed.tail
    let name_part := rest.takeWhile (fun c => c ≠ ' ')
    let after := rest.dropWhile (fun c => c ≠ ' ')
    let name := toLower name_part
    let arg : Option Str := if after.isEmpty then none else some after.tail
    (commands_list.find? (fun c => c.name = name || c.shortcut = some name)).map
      (fun c => (c, arg))

/-- filter_models from commands.rs: case-insensitive substring match on
name, id, group or provider key. -/
def filter_models (entries : List ModelEntry) (query : Str) : List ModelEntry :=
  let q := toLower (trim query)
  if q.isEmpty then entries
  else
    entries.filter (fun e =>
      isSubstr q (toLower e.name)
        || isSubstr q (toLower e.id)
        || isSubstr q (toLower e.group)
        || (match e.provider_key with
            | some p => isSubstr q (toLower p)
            | none => false))

/-- The group comparator of sort_models_by_provider: groups lowercasing to
openai first, remaining groups in lexical order. -/
def groupCmp (a b : Str) : Ordering :=
  let a_is_openai := toLower a = str "openai"
  let b_is_openai := toLower b = str "openai"
  if a_is_openai && !b_is_openai then .lt
  else if !a_is_openai && b_is_openai then .gt
  else strCmp a b

/-- One BTreeMap::entry(..).or_default().push(..) step: the association
list is kept in ascending key order, duplicates of a key extend its
vector. -/
def insertGroup : List (Str × List ModelEntry) → ModelEntry → List (Str × List ModelEntry)
  | [], e => [(e.group, [e])]
  | (k, items) :: rest, e =>
    match strCmp e.group k with
    | .lt => (e.group, [e]) :: (k, items) :: rest
    | .eq => (k, items ++ [e]) :: rest
    | .gt => (k, items) :: insertGroup rest e

/-- The BTreeMap of sort_models_by_provider, as a key-sorted association
list in iteration order. -/
def buildGroups (entries : List ModelEntry) : List (Str × List ModelEntry) :=
  entries.foldl insertGroup []

/-- sort_models_by_provider from commands.rs: group by group string,
order the groups with openai-lowercased keys first then lexically, and
sort each group's entries by name. -/
def sort_models_by_provider (entries : List ModelEntry) : List ModelEntry :=
  let groups := buildGroups entries
  let ordered_groups := sortCmp (fun a b => groupCmp a.1 b.1) groups
  (ordered_groups.map (fun g => sortCmp (fun a b => strCmp a.name b.name) g.2)).flatten

-- Sanity checks.
example :
    (filter_commands commands_list (str "h")).map (fun c => c.name) =
      [str "history", str "reindex", str "todos", str "models"] := by decide
example : (filter_commands commands_list (str " ")).length = 10 := by decide
example :
    (sort_models_by_provider
      [⟨str "m1", str "b", none, none, str "anthropic", none⟩,
       ⟨str "m2", str "a", none, none, str "openai", none⟩]).map (fun e => e.name) =
      [str "a", str "b"] := by decide

/-- App::upsert_timeline from app.rs: replace the first entry with a
matching id in place, otherwise append; then bump the revision and the
display flags. -/
def upsert_timeline (s : App) (event : TimelineEvent) : App :=
  let s :=
    match s.state.timeline_events.findIdx? (fun e => e.id == event.id) with
    | some idx =>
      { s with state := { s.state with
          timeline_events := s.state.timeline_events.set idx event } }
    | none =>
      { s with state := { s.state with
          timeline_events := s.state.timeline_events ++ [event] } }
  let s := { s with show_splash := false,
                    timeline_revision := s.timeline_revision + 1 }
  let s := if s.auto_scroll then { s with scroll_from_bottom := 0 } else s
  let s := if s.mode = UiMode.sessionHistory
           then { s with history_needs_refresh := true } else s
  mark_dirty s

/-- filter_files from app.rs: case-insensitive path-substring filter that
keeps index order and stops after max_results hits. -/
def filter_files (index : List FileResult) (query : Str) (max_results : Nat) : List FileResult :=
  let lower := toLower query
  let rec go : List FileResult → Nat → List FileResult
    | [], _ => []
    | item :: rest, taken =>
      if max_results ≤ taken then []
      else if !lower.isEmpty && !isSubstr lower (toLower item.relative_path) then
        go rest taken
      else
        item :: (if max_results ≤ taken + 1 then [] else go rest (taken + 1))
  go index 0

/-- ensure_file_index from app.rs: populate the index from the file-system
walk (supplied by the environment) when it is empty. -/
def ensure_file_index (s : App) (env : Env) : App :=
  if s.file_index.isEmpty then { s with file_index := env.fileIndex } else s

/-- file_query_from_input from app.rs: the text between the last @ before
the cursor and the cursor. -/
def file_query_from_input (input : Str) (cursor : Nat) : Str :=
  let upto := (splitAtByte input (min cursor (byteLen input))).1
  match rfindChar upto '@' with
  | some idx => (splitAtByte upto (idx + 1)).2
  | none => []

/-- insert_file_mention from app.rs: replace the query after the last @
before the cursor by the chosen path plus a space. -/
def insert_file_mention (s : App) (path : Str) : App :=
  let upto := (splitAtByte s.input s.cursor).1
  match rfindChar upto '@' with
  | some idx =>
    let before := (splitAtByte s.input (idx + 1)).1
    let after := (splitAtByte s.input s.cursor).2
    { s with input := before ++ path ++ [' '] ++ after,
             cursor := byteLen before + byteLen path + 1 }
  | none => s

/-- select_option from app.rs: toggle in multi-select, else make the index
the unique selection. -/
def select_option (q : QuestionState) (idx : Nat) : QuestionState :=
  if q.options.isEmpty then q
  else if q.allow_multiple then
    match q.selected.get? idx with
    | some v => { q with selected := q.selected.set idx (!v) }
    | none => q
  else
    let cleared := q.selected.map (fun _ => false)
    if idx < cleared.length then { q with selected := cleared.set idx true }
    else { q with selected := cleared }

/-- collect_answers from app.rs: labels of the selected options, plus the
trimmed custom input when allowed and non-empty. -/
def collect_answers (q : QuestionState) : List Str :=
  let answers := (q.options.enum.filter
      (fun oi => q.selected.getD oi.1 false)).map (fun oi => oi.2.label)
  if q.allow_custom && !(trim q.custom_input).isEmpty then
    answers ++ [trim q.custom_input]
  else answers

/-- refresh_todos from app.rs: with a session id, issue list_todos and
fold whichever of the list/counts fields the response carries. -/
def refresh_todos (s : App) (env : Env) : App :=
  match s.state.session_id with
  | none => s
  | some _ =>
    let s := pushCall s (str "list_todos")
    match env.listTodos with
    | .error _ => s
    | .ok resp =>
      let s := match resp.list with
        | some l => { s with todos := l }
        | none => s
      let s := match resp.counts with
        | some c => { s with todo_counts := c }
        | none => s
      mark_dirty s

-- A concrete baseline application state, used by examples, witnesses and
-- counterexamples below.
def emptyChatState : ChatState :=
  { is_loading := false, error := none, timeline_events := [],
    session_tokens := none, context_usage := ⟨0,0,0⟩,
    context_status := none, tokens := ⟨0,0,none,none⟩,
    session_id := none, plan_exit_proposed := false,
    agent := str "build", model_override := none,
    provider_override := none, reasoning_effort_override := none }

/-- A concrete baseline App (the state App::new would build from an empty
chat state), used as the starting point of concrete evaluations. -/
def app0 : App :=
  { state := emptyChatState,
    input := [], cursor := 0, should_quit := false,
    reasoning_effort := str "off", mode := .normal, command_query := [],
    command_selected := 0, command_offset := 0, file_selected := 0,
    model_query := [], model_selected := 0, model_offset := 0,
    model_entries := [], custom_model_mode := false, custom_model_input := [],
    session_list := [], session_selected := 0, session_offset := 0,
    session_rename_active := false, session_rename_input := [],
    history_needs_refresh := false, question := none, todos := [],
    todo_counts := ⟨0,0,0,0⟩, compact_view := false, scroll_from_bottom := 0,
    dirty := false, toast := none, project_dir := [], pending_gg := false,
    attachments := [], file_index := [], show_splash := true,
    show_telemetry_details := false, needs_clear := false,
    timeline_revision := 0, timeline_cache_rev := 0, timeline_cache_width := 0,
    timeline_cache_compact := false, timeline_cache := [], base_model := [],
    spinner_index := 0, todos_expanded := false,
    todos_request_inflight := false, question_request_inflight := false,
    auto_scroll := true, reindex_inflight := false, calls := [] }

/-- An environment with no clipboard image and failing oracles, used where
the embedded code under scrutiny never consults the environment. -/
def env0 : Env :=
  { clipboard := .notAvailable, listSessions := .error (),
    listModels := .error (), listTodos := .error (), fileIndex := [] }

-- Sanity checks.
example :
    (upsert_timeline app0
      ⟨str "e1", str "s", 0, str "user", str "hi", none, none, none, none,
        none, none⟩).state.timeline_events.length = 1 := by decide

/-- execute_command from commands.rs: dispatch on the command's action
string; list_sessions / list_models / list_todos responses come from the
environment; every path ends with mark_dirty. -/
def execute_command (s : App) (env : Env) (cmd : CommandItem) (_arg : Option Str) : App :=
  let s :=
    if cmd.action = str "session:new" || cmd.action = str "session:clear" then
      let s := pushCall s (str "clear")
      { s with show_splash := true, needs_clear := true,
               input := [], cursor := 0, attachments := [] }
    else if cmd.action = str "session:history" then
      let s := pushCall s (str "list_sessions")
      match env.listSessions with
      | .ok (some list) =>
        { s with session_list := list, session_selected := 0,
                 mode := .sessionHistory }
      | .ok none => set_toast s (str "Failed to parse sessions")
      | .error _ => set_toast s (str "Failed to load sessions")
    else if cmd.action = str "mode:plan" then
      let s := pushCall s (str "set_agent")
      { s with state := { s.state with agent := str "plan" } }
    else if cmd.action = str "mode:build" then
      let s := pushCall s (str "set_agent")
      { s with state := { s.state with agent := str "build" } }
    else if cmd.action = str "tool:reindex" then
      let s := { s with file_index := [], reindex_inflight := true }
      let s := set_toast s (str "Reindexing...")
      pushCall s (str "execute_tool")
    else if cmd.action = str "tool:todos" then
      let s := { s with todos_expanded := !s.todos_expanded }
      refresh_todos s env
    else if cmd.action = str "tool:revert" then
      pushCall s (str "execute_tool")
    else if cmd.action = str "settings:model" then
      let s := pushCall s (str "list_models")
      match env.listModels with
      | .ok (some (some entries)) =>
        { s with model_entries := entries, model_query := [],
                 model_selected := 0, model_offset := 0, mode := .modelPicker }
      | .ok (some none) => set_toast s (str "Failed to parse model list")
      | .ok none => set_toast s (str "Model list unavailable")
      | .error _ => set_toast s (str "Failed to load models")
    else if cmd.action = str "help:about" then
      { s with mode := .helpAbout }
    else s
  mark_dirty s

/-- handle_paste from input.rs: in Normal mode, wrap non-empty pasted text
in the paste sentinels and splice it at the (clamped) cursor; when the
cursor sits directly after a paste-end sentinel or directly before a
paste-start sentinel, splice the raw text inside that existing region
instead. -/
def handle_paste (s : App) (text : Str) : App :=
  if s.mode = UiMode.normal then
    if text.isEmpty then s
    else
      let cursor := clamp_cursor s.input s.cursor
      let insertion := PASTE_START :: text ++ [PASTE_END]
      let prev := (prev_char_start s.input cursor).bind
        (fun i => (splitAtByte s.input i).2.head?)
      let next := char_at s.input cursor
      let s :=
        if prev = some PASTE_END then
          let before_end := cursor - len_utf8 PASTE_END
          let p := splitAtByte s.input before_end
          { s with input := p.1 ++ text ++ p.2,
                   cursor := before_end + byteLen text + len_utf8 PASTE_END }
        else if next = some PASTE_START then
          let start_len := len_utf8 PASTE_START
          let insert_at := cursor + start_len
          let p := splitAtByte s.input insert_at
          { s with input := p.1 ++ text ++ p.2,
                   cursor := insert_at + byteLen text }
        else
          let p := splitAtByte s.input cursor
          { s with input := p.1 ++ insertion ++ p.2,
                   cursor := cursor + byteLen insertion }
      mark_dirty s
  else s

-- Sanity checks.
example :
    (handle_paste app0 (str "hi")).input =
      PASTE_START :: str "hi" ++ [PASTE_END] := by decide
example :
    (handle_paste { app0 with input := [PASTE_START, 'a', PASTE_END], cursor := 7 }
        (str "b")).input = [PASTE_START, 'a', 'b', PASTE_END] := by decide
example :
    (handle_paste { app0 with input := [PASTE_START, 'a', PASTE_END], cursor := 7 }
        (str "b")).cursor = 8 := by decide

/-- The cursor clamp both key-handling entry points apply to the state
before anything else. -/
def clamp_state (s : App) : App :=
  { s with cursor := clamp_cursor s.input s.cursor }

/-- Body of handle_overlay_keys from input.rs after its leading cursor
clamp: the active overlay mode consumes the key; returns (consumed, new
state).  Rust's ordered match arms with pattern guards become an if chain
in the same order. -/
def handle_overlay_inner (key : KeyEvent) (s : App) (env : Env) : Bool × App :=
  match s.mode with
  | .commandPalette =>
    let commands := filter_commands commands_list s.command_query
    let page_size := 10
    let max_index := commands.length - 1
    let s :=
      if key.code = .esc then { s with mode := .normal }
      else if key.code = .up || key.code = .char 'k' then
        { s with command_selected := s.command_selected - 1 }
      else if key.code = .down || key.code = .char 'j' then
        if s.command_selected + 1 < commands.length then
          { s with command_selected := s.command_selected + 1 }
        else s
      else if key.code = .pageUp then
        { s with command_selected := s.command_selected - page_size }
      else if key.code = .pageDown then
        { s with command_selected := min (s.command_selected + page_size) max_index }
      else if key.code = .backspace then
        { s with command_query := s.command_query.dropLast,
                 command_selected := 0, command_offset := 0 }
      else if key.code = .enter then
        let s := match commands.get? s.command_selected with
          | some cmd => execute_command s env cmd none
          | none => s
        let s := if s.mode = .commandPalette then { s with mode := .normal } else s
        { s with command_query := [], command_offset := 0 }
      else
        match key.code with
        | .char ch =>
          if !key.ctrl && !key.alt then
            { s with command_query := s.command_query ++ [ch],
                     command_selected := 0, command_offset := 0 }
          else s
        | _ => s
    let s :=
      if commands.isEmpty then
        { s with command_selected := 0, command_offset := 0 }
      else
        let s := if commands.length ≤ s.command_selected then
            { s with command_selected := commands.length - 1 } else s
        if s.command_selected < s.command_offset then
          { s with command_offset := s.command_selected }
        else if s.command_offset + page_size ≤ s.command_selected then
          { s with command_offset := s.command_selected + 1 - page_size }
        else s
    (true, mark_dirty s)
  | .fileMention =>
    let query := file_query_from_input s.input s.cursor
    let s := ensure_file_index s env
    let results := filter_files s.file_index query 10
    let s :=
      if key.code = .esc then { s with mode := .normal }
      else if key.code = .up then
        { s with file_selected := s.file_selected - 1 }
      else if key.code = .down then
        if s.file_selected + 1 < results.length then
          { s with file_selected := s.file_selected + 1 }
        else s
      else if key.code = .tab || key.code = .enter then
        let s := match results.get? s.file_selected with
          | some file => insert_file_mention s file.relative_path
          | none => s
        { s with mode := .normal }
      else if key.code = .backspace then
        let s :=
          if 0 < s.cursor then
            match (splitAtByte s.input s.cursor).1.getLast? with
            | some ch =>
              { s with input := (splitAtByte s.input (s.cursor - len_utf8 ch)).1
                                  ++ (splitAtByte s.input s.cursor).2,
                       cursor := s.cursor - len_utf8 ch }
            | none => s
          else s
        if !s.input.contains '@' then { s with mode := .normal } else s
      else
        match key.code with
        | .char ch =>
          if !key.ctrl && !key.alt then
            let p := splitAtByte s.input s.cursor
            { s with input := p.1 ++ [ch] ++ p.2,
                     cursor := s.cursor + len_utf8 ch }
          else s
        | _ => s
    (true, mark_dirty s)
  | .modelPicker =>
    let filtered := sort_models_by_provider (filter_models s.model_entries s.model_query)
    let total := filtered.length + 1
    let s :=
      if key.code = .esc then
        { s with mode := .normal, custom_model_mode := false,
                 custom_model_input := [] }
      else if key.code = .up then
        { s with model_selected := s.model_selected - 1 }
      else if key.code = .down then
        if s.model_selected + 1 < total then
          { s with model_selected := s.model_selected + 1 }
        else s
      else if key.code = .pageUp then
        { s with model_selected := s.model_selected - 10 }
      else if key.code = .pageDown then
        { s with model_selected := min (s.model_selected + 10) (total - 1) }
      else if key.code = .enter then
        if s.model_selected = filtered.length then
          { s with custom_model_mode := true }
        else
          match filtered.get? s.model_selected with
          | some entry =>
            let s := pushCall s (str "set_model")
            let s := pushCall s (str "set_provider")
            let next_reasoning :=
              if entry.reasoning.getD false then str "medium" else str "off"
            let s := { s with reasoning_effort := next_reasoning }
            let s := pushCall s (str "set_reasoning_effort")
            { s with mode := .normal }
          | none => s
      else if key.code = .backspace then
        if s.custom_model_mode then
          { s with custom_model_input := s.custom_model_input.dropLast }
        else
          { s with model_query := s.model_query.dropLast }
      else
        match key.code with
        | .char ch =>
          if !key.ctrl && !key.alt then
            if s.custom_model_mode then
              { s with custom_model_input := s.custom_model_input ++ [ch] }
            else
              { s with model_query := s.model_query ++ [ch],
                       model_selected := 0, model_offset := 0 }
          else s
        | _ => s
    let s :=
      if s.model_selected < s.model_offset then
        { s with model_offset := s.model_selected }
      else if s.model_offset + 10 ≤ s.model_selected then
        { s with model_offset := s.model_selected + 1 - 10 }
      else s
    let s :=
      if s.custom_model_mode && key.code = .enter then
        if !(trim s.custom_model_input).isEmpty then
          let s := pushCall s (str "set_model")
          let s := pushCall s (str "set_provider")
          let s := { s with reasoning_effort := str "off" }
          let s := pushCall s (str "set_reasoning_effort")
          { s with mode := .normal, custom_model_mode := false,
                   custom_model_input := [] }
        else s
      else s
    (true, mark_dirty s)
  | .sessionHistory =>
    if s.session_rename_active then
      let s :=
        if key.code = .esc then
          { s with session_rename_active := false, session_rename_input := [] }
        else if key.code = .backspace then
          { s with session_rename_input := s.session_rename_input.dropLast }
        else if key.code = .enter then
          let s := match s.session_list.get? s.session_selected with
            | some sess =>
              let name := trim s.session_rename_input
              if !name.isEmpty then
                let s := pushCall s (str "rename_session")
                let retitled := { sess with title := trim s.session_rename_input }
                { s with session_list :=
                    s.session_list.set s.session_selected retitled }
              else s
            | none => s
          { s with session_rename_active := false, session_rename_input := [] }
        else
          match key.code with
          | .char ch =>
            if !key.ctrl && !key.alt then
              { s with session_rename_input := s.session_rename_input ++ [ch] }
            else s
          | _ => s
      (true, mark_dirty s)
    else
      let s :=
        if key.code = .esc then { s with mode := .normal }
        else if key.code = .up then
          { s with session_selected := s.session_selected - 1 }
        else if key.code = .down then
          if s.session_selected + 1 < s.session_list.length then
            { s with session_selected := s.session_selected + 1 }
          else s
        else if key.code = .pageUp then
          { s with session_selected := s.session_selected - 10 }
        else if key.code = .pageDown then
          let capped := min (s.session_selected + 10) (s.session_list.length - 1)
          { s with session_selected := capped }
        else if key.code = .char 'd' then
          match s.session_list.get? s.session_selected with
          | some _ =>
            let s := pushCall s (str "delete_session")
            let s := { s with session_list :=
                s.session_list.eraseIdx s.session_selected }
            let s :=
              if s.session_list.length ≤ s.session_selected
                  && !s.session_list.isEmpty then
                { s with session_selected := s.session_list.length - 1 }
              else s
            { s with history_needs_refresh := true }
          | none => s
        else if key.code = .char 'r' then
          match s.session_list.get? s.session_selected with
          | some sess =>
            { s with session_rename_active := true,
                     session_rename_input := sess.title }
          | none => s
        else if key.code = .enter then
          let s := match s.session_list.get? s.session_selected with
            | some _ => pushCall s (str "load_session")
            | none => s
          { s with mode := .normal }
        else s
      let s :=
        if s.session_list.isEmpty then
          { s with session_selected := 0, session_offset := 0 }
        else
          let s := if s.session_list.length ≤ s.session_selected then
              { s with session_selected := s.session_list.length - 1 } else s
          let page_size := 10
          if s.session_selected < s.session_offset then
            { s with session_offset := s.session_selected }
          else if s.session_offset + page_size ≤ s.session_selected then
            { s with session_offset := s.session_selected + 1 - page_size }
          else s
      (true, mark_dirty s)
  | .questionPrompt =>
    match s.question with
    | none => (true, mark_dirty s)
    | some q =>
      let total_options := q.options.length + (if q.allow_custom then 1 else 0)
      let s :=
        if key.code = .esc then
          if q.custom_active then
            let q2 := { q with custom_active := false, custom_input := [] }
            { s with question := some q2 }
          else
            let s := pushCall s (str "skip_question")
            { s with question := none, mode := .normal }
        else if key.code = .up then
          if !q.custom_active then
            let q2 := { q with focused_index := q.focused_index - 1 }
            { s with question := some q2 }
          else s
        else if key.code = .down then
          if !q.custom_active && 0 < total_options then
            let capped := min (q.focused_index + 1) (total_options - 1)
            let q2 := { q with focused_index := capped }
            { s with question := some q2 }
          else s
        else if key.code = .char ' ' then
          if q.allow_multiple && !q.custom_active then
            if q.focused_index < q.options.length then
              { s with question := some (select_option q q.focused_index) }
            else if q.allow_custom then
              { s with question := some { q with custom_active := true } }
            else s
          else s
        else if key.code = .enter then
          if q.custom_active then
            if !(trim q.custom_input).isEmpty then
              let s := pushCall s (str "answer_question")
              { s with question := none, mode := .normal }
            else s
          else if q.allow_custom && q.focused_index = q.options.length then
            { s with question := some { q with custom_active := true } }
          else if q.allow_multiple then
            let answers := collect_answers q
            if !answers.isEmpty then
              let s := pushCall s (str "answer_question")
              { s with question := none, mode := .normal }
            else if q.focused_index < q.options.length then
              let s := pushCall s (str "answer_question")
              { s with question := none, mode := .normal }
            else s
          else if q.focused_index < q.options.length then
            let s := pushCall s (str "answer_question")
            { s with question := none, mode := .normal }
          else s
        else if key.code = .backspace then
          if q.custom_active then
            let q2 := { q with custom_input := q.custom_input.dropLast }
            { s with question := some q2 }
          else s
        else
          match key.code with
          | .char ch =>
            if q.custom_active then
              if !key.ctrl && !key.alt then
                let q2 := { q with custom_input := q.custom_input ++ [ch] }
                { s with question := some q2 }
              else s
            else if ch.isDigit then
              let idx := (ch.toNat - '0'.toNat) - 1
              if idx < q.options.length then
                let s := pushCall s (str "answer_question")
                { s with question := none, mode := .normal }
              else s
            else s
          | _ => s
      (true, mark_dirty s)
  | .planActions =>
    let s :=
      if key.code = .enter then
        let s := pushCall s (str "send_message")
        { s with mode := .normal }
      else if key.code = .esc then
        let s := pushCall s (str "reset_plan_exit")
        { s with mode := .normal }
      else s
    (true, mark_dirty s)
  | .helpAbout =>
    if key.code = .esc || key.code = .enter then
      (true, mark_dirty { s with mode := .normal })
    else (true, s)
  | .normal => (false, s)

/-- handle_overlay_keys from input.rs: clamp the cursor to a character
boundary, then dispatch on the active overlay mode. -/
def handle_overlay_keys (key : KeyEvent) (s : App) (env : Env) : Bool × App :=
  handle_overlay_inner key (clamp_state s) env

/-- usize::MAX of the 64-bit target. -/
def USIZE_MAX : Nat := 2 ^ 64 - 1

/-- usize::saturating_add. -/
def satAdd (a b : Nat) : Nat := min (a + b) USIZE_MAX

/-- The attachment-pop loop of the Backspace arm: n iterations of pop on
a Vec, each a no-op when the list is already empty. -/
def popN : Nat → List α → List α
  | 0, l => l
  | n + 1, l => popN n (if l.isEmpty then l else l.dropLast)

/-- handle_key from input.rs.  The cursor is clamped to a character
boundary first; Escape is intercepted globally (abort when loading, back
to Normal) and returns before the overlay dispatch, which makes the
overlay modes' own Esc arms unreachable from this entry point; otherwise
the active overlay may consume the key, and the remaining arms run in
Normal mode.  The final KeyCode::Esc arm of the Rust match is dead code
(Esc returned above) and therefore has no branch here.  This is the body
after the leading cursor clamp. -/
def handle_key_inner (key : KeyEvent) (s : App) (env : Env) : App :=
  if key.code = .esc then
    let s := if s.state.is_loading then pushCall s (str "abort") else s
    let s := if s.mode ≠ .normal then { s with mode := .normal } else s
    mark_dirty s
  else
    let r := handle_overlay_keys key s env
    if r.1 then r.2
    else
      let s := { r.2 with pending_gg := false }
      if key.code = .char 'c' && key.ctrl then
        if s.state.is_loading then pushCall s (str "abort")
        else { s with should_quit := true }
      else if key.code = .char 'i' && key.ctrl then
        mark_dirty { s with show_telemetry_details := !s.show_telemetry_details }
      else if key.code = .char 'l' && key.ctrl then
        let s := pushCall s (str "clear")
        mark_dirty { s with show_splash := true, needs_clear := true,
                            input := [], cursor := 0, attachments := [] }
      else if key.code = .char 'n' && key.ctrl then
        let s := pushCall s (str "clear")
        mark_dirty { s with show_splash := true, needs_clear := true,
                            input := [], cursor := 0, attachments := [] }
      else if key.code = .char 'u' && key.ctrl then
        mark_dirty { s with input := [], cursor := 0, attachments := [] }
      else if key.code = .char 'w' && key.ctrl then
        if 0 < s.cursor then
          let before := trimEnd (splitAtByte s.input s.cursor).1
          let last_space := match rfindChar before ' ' with
            | some i => i + 1
            | none => 0
          let after := (splitAtByte s.input s.cursor).2
          mark_dirty { s with input := (splitAtByte before last_space).1 ++ after,
                              cursor := last_space }
        else s
      else if key.code = .char 'a' && key.ctrl then
        mark_dirty { s with cursor := 0 }
      else if key.code = .char 'e' && key.ctrl then
        mark_dirty { s with cursor := byteLen s.input }
      else if key.code = .char 'r' && key.ctrl then
        let next :=
          if s.reasoning_effort = str "off" then str "low"
          else if s.reasoning_effort = str "low" then str "medium"
          else if s.reasoning_effort = str "medium" then str "high"
          else str "off"
        let s := { s with reasoning_effort := next }
        let s := pushCall s (str "set_reasoning_effort")
        set_toast s (str "Reasoning: " ++ next)
      else if key.code = .char 't' && key.ctrl then
        let s := mark_dirty { s with todos_expanded := !s.todos_expanded }
        refresh_todos s env
      else if key.code = .tab then
        let next := if s.state.agent = str "build" then str "plan" else str "build"
        let s := { s with state := { s.state with agent := next } }
        let s := pushCall s (str "set_agent")
        mark_dirty s
      else if key.code = .char '/' && s.input.isEmpty then
        mark_dirty { s with mode := .commandPalette, command_query := [],
                            command_selected := 0, command_offset := 0 }
      else if key.code = .up && s.mode = .normal && s.input.isEmpty then
        mark_dirty { s with scroll_from_bottom := satAdd s.scroll_from_bottom 1,
                            auto_scroll := false }
      else if key.code = .down && s.mode = .normal && s.input.isEmpty then
        let s := { s with scroll_from_bottom := s.scroll_from_bottom - 1 }
        let s := if s.scroll_from_bottom = 0 then { s with auto_scroll := true } else s
        mark_dirty s
      else if key.code = .pageUp && s.mode = .normal && s.input.isEmpty then
        mark_dirty { s with scroll_from_bottom := satAdd s.scroll_from_bottom 10,
                            auto_scroll := false }
      else if key.code = .pageDown && s.mode = .normal && s.input.isEmpty then
        let s := { s with scroll_from_bottom := s.scroll_from_bottom - 10 }
        let s := if s.scroll_from_bottom = 0 then { s with auto_scroll := true } else s
        mark_dirty s
      else if key.code = .home && s.mode = .normal && s.input.isEmpty then
        mark_dirty { s with scroll_from_bottom := USIZE_MAX, auto_scroll := false }
      else if key.code = .endKey && s.mode = .normal && s.input.isEmpty then
        mark_dirty { s with scroll_from_bottom := 0, auto_scroll := true }
      else if key.code = .enter then
        let content := trim s.input
        if content.head? = some '/' then
          let s := match parse_command content with
            | some (cmd, arg) => execute_command s env cmd arg
            | none => set_toast s (str "Unknown command")
          mark_dirty { s with input := [], cursor := 0, attachments := [] }
        else if !content.isEmpty || !s.attachments.isEmpty then
          let s := { s with input := [], cursor := 0, attachments := [],
                            show_splash := false, auto_scroll := true,
                            scroll_from_bottom := 0 }
          let s := mark_dirty s
          pushCall s (str "send_message")
        else s
      else if key.code = .backspace then
        match handle_backspace s.input s.cursor with
        | some (new_value, new_cursor) =>
          let removed_images :=
            s.input.count IMAGE_MARKER - new_value.count IMAGE_MARKER
          let s := { s with input := new_value, cursor := new_cursor }
          let s :=
            if 0 < removed_images && !s.attachments.isEmpty then
              { s with attachments := popN removed_images s.attachments }
            else s
          mark_dirty s
        | none => s
      else if key.code = .left then
        if 0 < s.cursor then
          mark_dirty { s with cursor := cursor_left s.input s.cursor }
        else s
      else if key.code = .right then
        if s.cursor < byteLen s.input then
          mark_dirty { s with cursor := cursor_right s.input s.cursor }
        else s
      else if key.code = .char 'v' && key.ctrl then
        match env.clipboard with
        | .image data =>
          let p := splitAtByte s.input s.cursor
          let s := { s with input := p.1 ++ [IMAGE_MARKER] ++ p.2,
                            cursor := s.cursor + len_utf8 IMAGE_MARKER,
                            attachments := s.attachments ++ [⟨data, str "image/png"⟩] }
          let s := set_toast s (str "Image attached")
          mark_dirty s
        | .tooLarge => mark_dirty (set_toast s (str "Image too large (max 50MB)"))
        | .conversionError =>
          mark_dirty (set_toast s (str "Failed to process clipboard image"))
        | .notAvailable => s
      else
        match key.code with
        | .char ch =>
          if !key.ctrl && !key.alt then
            let p := splitAtByte s.input s.cursor
            let s := mark_dirty { s with input := p.1 ++ [ch] ++ p.2,
                                         cursor := s.cursor + len_utf8 ch }
            if ch = '@' && s.input.head? ≠ some '/' then
              let s := { s with mode := .fileMention, file_selected := 0 }
              let s := ensure_file_index s env
              mark_dirty s
            else s
          else s
        | _ => s

/-- handle_key from input.rs: clamp the cursor to a character boundary
before any other operation, then run the body. -/
def handle_key (key : KeyEvent) (s : App) (env : Env) : App :=
  handle_key_inner key (clamp_state s) env

-- Sanity checks of key handling.
example : (handle_key ⟨.char 'a', false, false⟩ app0 env0).input = str "a" := by decide
example : (handle_key ⟨.char 'a', false, false⟩ app0 env0).cursor = 1 := by decide
example :
    (handle_key ⟨.char 'v', true, false⟩ app0
      { env0 with clipboard := .image (str "IMG") }).input = [IMAGE_MARKER] := by decide
example :
    (handle_key ⟨.char 'v', true, false⟩ app0
      { env0 with clipboard := .image (str "IMG") }).attachments =
      [⟨str "IMG", str "image/png"⟩] := by decide
example :
    (handle_key ⟨.esc, false, false⟩
      { app0 with mode := .questionPrompt } env0).mode = .normal := by decide
example :
    (handle_key ⟨.esc, false, false⟩
      { app0 with state := { app0.state with is_loading := true } } env0).calls =
      [str "abort"] := by decide

/-- build_timeline_lines_cached from ui.rs.  The renderer
build_timeline_lines is a pure function of (state, compact flag, width,
spinner index); it is abstracted here as the parameter build, and a
rendered Line is abstracted as its text.  Returns the lines and the
updated App (cache fields). -/
def build_timeline_lines_cached (build : ChatState → Bool → Nat → Nat → List Str)
    (s : App) (width : Nat) : List Str × App :=
  if s.state.is_loading then
    (build s.state s.compact_view width s.spinner_index, s)
  else if s.timeline_cache_rev = s.timeline_revision
      && s.timeline_cache_width = width
      && s.timeline_cache_compact = s.compact_view then
    (s.timeline_cache, s)
  else
    let lines := build s.state s.compact_view width s.spinner_index
    (lines, { s with timeline_cache := lines,
                     timeline_cache_rev := s.timeline_revision,
                     timeline_cache_width := width,
                     timeline_cache_compact := s.compact_view })

/-- A JSON value, as far as the transport client inspects one. -/
inductive JVal
  | null
  | bool (b : Bool)
  | num (n : Int)
  | string (s : Str)
  | arr (items : List JVal)
  | obj (fields : List (Str × JVal))

/-- serde_json object field access (first binding wins). -/
def JVal.get (v : JVal) (key : Str) : Option JVal :=
  match v with
  | .obj fields => (fields.find? (fun f => f.1 = key)).map (fun f => f.2)
  | _ => none

/-- Value::as_u64 restricted to the integer model. -/
def JVal.as_u64 (v : JVal) : Option Nat :=
  match v with
  | .num n => if 0 ≤ n then some n.toNat else none
  | _ => none

/-- Value::as_str. -/
def JVal.as_str (v : JVal) : Option Str :=
  match v with
  | .string s => some s
  | _ => none

/-- State of the reader thread's surroundings: the pending-request table
(ids still awaiting their reply, each holding the one-shot sender), the
replies delivered so far, and the re-emitted notifications. -/
structure ReaderState where
  pendingIds : List Nat
  fulfilled : List (Nat × JVal)
  notifs : List (Str × JVal)

/-- One line handled by the reader thread of
BackendClient::start_reader_thread.  A line is given as the outcome of
serde_json parsing: none models an empty or malformed line (skipped).  A
value with a u64 id removes and fulfills the matching pending entry
(silently dropped when none matches); otherwise a value with a string
method re-emits a notification with its params defaulting to null. -/
def reader_step (st : ReaderState) (line : Option JVal) : ReaderState :=
  match line with
  | none => st
  | some v =>
    match (v.get (str "id")).bind JVal.as_u64 with
    | some id =>
      if st.pendingIds.contains id then
        { st with pendingIds := st.pendingIds.filter (fun i => i ≠ id),
                  fulfilled := st.fulfilled ++ [(id, v)] }
      else st
    | none =>
      match (v.get (str "method")).bind JVal.as_str with
      | some m =>
        let params := (v.get (str "params")).getD .null
        { st with notifs := st.notifs ++ [(m, params)] }
      | none => st

/-- The reader thread run to end of stream: fold reader_step over the
(parsed) lines; when the list is exhausted the worker's stdout has closed
and the thread exits, leaving the remaining pending entries (and their
senders) in the table. -/
def reader_run (lines : List (Option JVal)) (st : ReaderState) : ReaderState :=
  lines.foldl reader_step st

/-- The response handling at the tail of BackendClient::call: a response
with an error field fails carrying that error value (whose rendering the
code wraps in anyhow), otherwise the result field, defaulting to null, is
returned. -/
def call_response (resp : JVal) : Except JVal JVal :=
  match resp.get (str "error") with
  | some e => .error e
  | none => .ok ((resp.get (str "result")).getD .null)

-- Sanity checks.
example :
    call_response (.obj [(str "id", .num 1), (str "error", .string (str "boom"))]) =
      .error (.string (str "boom")) := by rfl
example :
    call_response (.obj [(str "id", .num 1), (str "result", .num 7)]) =
      .ok (.num 7) := by rfl
example : call_response (.obj [(str "id", .num 1)]) = .ok .null := by rfl
example :
    (reader_run [] ⟨[1], [], []⟩).pendingIds = [1] := by rfl

-- ───────────────────────── byte / boundary lemmas ─────────────────────────

theorem len_utf8_pos (c : Char) : 0 < len_utf8 c := by
  unfold len_utf8
  split
  · exact Nat.one_pos
  split
  · exact Nat.zero_lt_succ 1
  split
  · exact Nat.zero_lt_succ 2
  · exact Nat.zero_lt_succ 3

theorem byteLen_nil : byteLen [] = 0 := rfl

theorem byteLen_cons (c : Char) (s : Str) :
    byteLen (c :: s) = len_utf8 c + byteLen s := by
  simp [byteLen]

theorem byteLen_append (a b : Str) :
    byteLen (a ++ b) = byteLen a + byteLen b := by
  simp [byteLen]

theorem byteLen_pos_of_ne_nil {s : Str} (h : s ≠ []) : 0 < byteLen s := by
  cases s with
  | nil => exact absurd rfl h
  | cons c rest =>
    have h1 := len_utf8_pos c
    rw [byteLen_cons]
    omega

theorem splitAtByte_zero (s : Str) : splitAtByte s 0 = ([], s) := by
  cases s with
  | nil => rfl
  | cons c rest =>
    have h1 := len_utf8_pos c
    unfold splitAtByte
    rw [if_neg (by omega)]

theorem splitAtByte_exact (xs ys : Str) :
    splitAtByte (xs ++ ys) (byteLen xs) = (xs, ys) := by
  induction xs with
  | nil => simpa using splitAtByte_zero ys
  | cons c rest ih =>
    simp [splitAtByte, byteLen_cons, ih]

theorem splitAtByte_take_drop (s : Str) (k : Nat) :
    splitAtByte s (byteLen (s.take k)) = (s.take k, s.drop k) := by
  have h := splitAtByte_exact (s.take k) (s.drop k)
  rwa [List.take_append_drop] at h

theorem byteLen_take_le (s : Str) (k : Nat) : byteLen (s.take k) ≤ byteLen s := by
  have h : byteLen (s.take k ++ s.drop k) = byteLen s := by
    rw [List.take_append_drop]
  rw [byteLen_append] at h
  omega

theorem isCharBoundary_iff (s : Str) (i : Nat) :
    isCharBoundary s i = true ↔ ∃ k, k ≤ s.length ∧ byteLen (s.take k) = i := by
  unfold isCharBoundary
  simp [List.any_eq_true, List.mem_range, Nat.lt_succ_iff]

theorem isCharBoundary_take (s : Str) (k : Nat) :
    isCharBoundary s (byteLen (s.take k)) = true := by
  rw [isCharBoundary_iff]
  by_cases hk : k ≤ s.length
  · exact ⟨k, hk, rfl⟩
  · refine ⟨s.length, Nat.le_refl _, ?_⟩
    rw [List.take_length, List.take_of_length_le (Nat.le_of_not_le hk)]

theorem isCharBoundary_zero (s : Str) : isCharBoundary s 0 = true := by
  have := isCharBoundary_take s 0
  simpa using this

theorem boundary_le_byteLen {s : Str} {i : Nat} (h : isCharBoundary s i = true) :
    i ≤ byteLen s := by
  obtain ⟨k, -, hk⟩ := (isCharBoundary_iff s i).mp h
  exact hk ▸ byteLen_take_le s k

theorem clampFrom_boundary (s : Str) (j : Nat) :
    isCharBoundary s (clampFrom s j) = true := by
  induction j with
  | zero => exact isCharBoundary_zero s
  | succ j ih =>
    unfold clampFrom
    split
    · assumption
    · exact ih

theorem clampFrom_le (s : Str) (j : Nat) : clampFrom s j ≤ j := by
  induction j with
  | zero => exact Nat.le_refl 0
  | succ j ih =>
    unfold clampFrom
    split
    · exact Nat.le_refl _
    · exact Nat.le_succ_of_le ih

theorem clamp_cursor_boundary (s : Str) (i : Nat) :
    isCharBoundary s (clamp_cursor s i) = true :=
  clampFrom_boundary s _

theorem clamp_cursor_le_byteLen (s : Str) (i : Nat) :
    clamp_cursor s i ≤ byteLen s :=
  Nat.le_trans (clampFrom_le s _) (Nat.min_le_right _ _)

theorem clamp_cursor_id {s : Str} {i : Nat} (h : isCharBoundary s i = true) :
    clamp_cursor s i = i := by
  unfold clamp_cursor
  rw [Nat.min_eq_left (boundary_le_byteLen h)]
  cases i with
  | zero => rfl
  | succ j => unfold clampFrom; rw [if_pos h]

theorem clamp_cursor_idem (s : Str) (i : Nat) :
    clamp_cursor s (clamp_cursor s i) = clamp_cursor s i :=
  clamp_cursor_id (clamp_cursor_boundary s i)

theorem clamp_cursor_take (s : Str) (k : Nat) :
    clamp_cursor s (byteLen (s.take k)) = byteLen (s.take k) :=
  clamp_cursor_id (isCharBoundary_take s k)

theorem splitAtByte_fst_append_snd (s : Str) (i : Nat) :
    (splitAtByte s i).1 ++ (splitAtByte s i).2 = s := by
  induction s generalizing i with
  | nil => rfl
  | cons c rest ih =>
    unfold splitAtByte
    split
    · simpa using ih (i - len_utf8 c)
    · rfl

theorem take_take_of_le {j k : Nat} (h : j ≤ k) (s : Str) :
    (s.take k).take j = s.take j := by
  rw [List.take_take, Nat.min_eq_left h]

theorem head?_split_snd (s : Str) (k : Nat) :
    (splitAtByte s (byteLen (s.take k))).2.head? = s[k]? := by
  rw [splitAtByte_take_drop]
  exact List.head?_drop s k

theorem take_succ_concat {s : Str} {k : Nat} (hk : k < s.length) :
    s.take (k + 1) = s.take k ++ [s[k]] := by
  rw [List.take_succ, List.getElem?_eq_getElem hk]
  rfl

theorem prev_char_start_take_succ {s : Str} {k : Nat} (hk : k < s.length) :
    prev_char_start s (byteLen (s.take (k + 1))) = some (byteLen (s.take k)) := by
  have hcons := take_succ_concat hk
  have hne : s.take (k + 1) ≠ [] := by
    intro hnil
    rcases List.take_eq_nil_iff.mp hnil with h | h
    · omega
    · subst h; simp at hk
  have hpos : 0 < byteLen (s.take (k + 1)) := byteLen_pos_of_ne_nil hne
  unfold prev_char_start
  rw [clamp_cursor_take, if_neg (by omega)]
  rw [splitAtByte_take_drop, hcons, List.getLast?_concat]
  simp only [Option.map_some']
  rw [byteLen_append]
  simp [byteLen_cons, byteLen_nil]

theorem prev_char_start_append_last (xs : Str) (ch : Char) (ys : Str) :
    prev_char_start ((xs ++ [ch]) ++ ys) (byteLen (xs ++ [ch])) =
      some (byteLen xs) := by
  have hk : xs.length < ((xs ++ [ch]) ++ ys).length := by
    simp
  have htake : ((xs ++ [ch]) ++ ys).take (xs.length + 1) = xs ++ [ch] := by
    have h1 : (xs ++ [ch]).length = xs.length + 1 := by simp
    rw [← h1, List.take_left]
  have htake' : ((xs ++ [ch]) ++ ys).take xs.length = xs := by
    rw [← take_take_of_le (Nat.le_succ xs.length) ((xs ++ [ch]) ++ ys), htake]
    exact List.take_left xs [ch]
  have h := prev_char_start_take_succ hk
  rw [htake, htake'] at h
  exact h

theorem rfindChar_shape {xs : Str} {t : Char} {i : Nat}
    (h : rfindChar xs t = some i) :
    ∃ j, j < xs.length ∧ xs[j]? = some t ∧ i = byteLen (xs.take j) := by
  induction xs generalizing i with
  | nil => simp [rfindChar] at h
  | cons c rest ih =>
    unfold rfindChar at h
    cases hr : rfindChar rest t with
    | some j' =>
      rw [hr] at h
      obtain ⟨j, hj, hg, hb⟩ := ih hr
      refine ⟨j + 1, by simpa using hj, by simpa using hg, ?_⟩
      cases h
      simp [List.take_cons, byteLen_cons, hb]
    | none =>
      rw [hr] at h
      by_cases hc : c = t
      · rw [if_pos hc] at h
        cases h
        exact ⟨0, by simp, by simp [hc], rfl⟩
      · rw [if_neg hc] at h
        cases h

theorem rfindChar_append (xs ys : Str) (t : Char) :
    rfindChar (xs ++ ys) t =
      match rfindChar ys t with
      | some j => some (byteLen xs + j)
      | none => rfindChar xs t := by
  induction xs with
  | nil =>
    cases h : rfindChar ys t with
    | some j => simp [h, byteLen_nil]
    | none => simp [h, rfindChar]
  | cons c rest ih =>
    show rfindChar (c :: (rest ++ ys)) t = _
    cases h : rfindChar ys t with
    | some j =>
      unfold rfindChar
      rw [ih, h]
      simp [byteLen_cons]
      omega
    | none =>
      unfold rfindChar
      rw [ih, h]

theorem rfindChar_eq_none_of_not_mem {xs : Str} {t : Char} (h : t ∉ xs) :
    rfindChar xs t = none := by
  induction xs with
  | nil => rfl
  | cons c rest ih =>
    have hct : ¬ c = t := by
      intro hc; subst hc; exact h (List.mem_cons_self c rest)
    have hr : rfindChar rest t = none :=
      ih (fun hm => h (List.mem_cons_of_mem c hm))
    unfold rfindChar
    rw [hr]
    simp [hct]

theorem rfindChar_last_marker (a t : Str) (hS : PASTE_START ∉ t) :
    rfindChar (a ++ PASTE_START :: t) PASTE_START = some (byteLen a) := by
  rw [rfindChar_append]
  have hin : rfindChar (PASTE_START :: t) PASTE_START = some 0 := by
    unfold rfindChar
    rw [rfindChar_eq_none_of_not_mem hS, if_pos rfl]
  rw [hin]
  simp

theorem prev_char_start_zero (v : Str) : prev_char_start v 0 = none := by
  simp only [prev_char_start]
  rw [clamp_cursor_id (isCharBoundary_zero v)]
  simp

theorem handle_backspace_zero (v : Str) : handle_backspace v 0 = none := by
  simp only [handle_backspace]
  rw [clamp_cursor_id (isCharBoundary_zero v), prev_char_start_zero]

theorem handle_backspace_clamp (v : Str) (cur : Nat) :
    handle_backspace v cur = handle_backspace v (clamp_cursor v cur) := by
  simp only [handle_backspace]
  rw [clamp_cursor_idem]

theorem handle_backspace_take_succ {v : Str} {k : Nat} (hk : k < v.length) :
    handle_backspace v (byteLen (v.take (k + 1))) =
      if v[k] = PASTE_END then
        match rfindChar (v.take k) PASTE_START with
        | some start => some ((splitAtByte v start).1 ++ v.drop (k + 1), start)
        | none => some (v.take k ++ v.drop (k + 1), byteLen (v.take k))
      else some (v.take k ++ v.drop (k + 1), byteLen (v.take k)) := by
  simp only [handle_backspace]
  rw [clamp_cursor_take]
  rw [prev_char_start_take_succ hk]
  simp only [head?_split_snd, List.getElem?_eq_getElem hk]
  rw [splitAtByte_take_drop v k]
  rw [splitAtByte_take_drop v (k + 1)]
  by_cases hE : v[k] = PASTE_END
  · simp [hE]
  · by_cases hI : v[k] = IMAGE_MARKER <;> simp [hE, hI]

theorem handle_backspace_shape {v : Str} {cur : Nat} {v' : Str} {c' : Nat}
    (h : handle_backspace v cur = some (v', c')) :
    ∃ k1 k2, k1 < k2 ∧ k2 ≤ v.length ∧
      v' = v.take k1 ++ v.drop k2 ∧ c' = byteLen (v.take k1) := by
  obtain ⟨k, hkle, hkc⟩ := (isCharBoundary_iff v (clamp_cursor v cur)).mp
    (clamp_cursor_boundary v cur)
  rw [handle_backspace_clamp, ← hkc] at h
  cases k with
  | zero =>
    rw [show byteLen (v.take 0) = 0 from rfl, handle_backspace_zero] at h
    cases h
  | succ k' =>
    have hk' : k' < v.length := hkle
    rw [handle_backspace_take_succ hk'] at h
    by_cases hE : v[k'] = PASTE_END
    · rw [if_pos hE] at h
      cases hr : rfindChar (v.take k') PASTE_START with
      | some start =>
        obtain ⟨j, hj, -, hjb⟩ := rfindChar_shape hr
        have hjlen : j < k' + 1 := by
          rw [List.length_take] at hj
          omega
        have hjtake : (v.take k').take j = v.take j :=
          take_take_of_le (by omega) v
        rw [hjtake] at hjb
        rw [hr] at h
        simp only [hjb] at h
        rw [splitAtByte_take_drop v j] at h
        cases h
        exact ⟨j, k' + 1, hjlen, hk', rfl, rfl⟩
      | none =>
        simp only [hr] at h
        cases h
        exact ⟨k', k' + 1, Nat.lt_succ_self k', hk', rfl, rfl⟩
    · rw [if_neg hE] at h
      cases h
      exact ⟨k', k' + 1, Nat.lt_succ_self k', hk', rfl, rfl⟩

theorem popN_length {n : Nat} {l : List α} (h : n ≤ l.length) :
    (popN n l).length = l.length - n := by
  induction n generalizing l with
  | zero => simp [popN]
  | succ n ih =>
    have hne : ¬ l.isEmpty = true := by
      cases l
      · simp at h
      · simp
    unfold popN
    rw [if_neg hne]
    rw [ih (by rw [List.length_dropLast]; omega), List.length_dropLast]
    omega

theorem popN_one_dropLast (l : List α) : popN 1 l = l.dropLast := by
  cases l <;> simp [popN]

theorem count_take_drop (a : Char) (s : Str) {k1 k2 : Nat} (h12 : k1 ≤ k2) :
    (s.take k1 ++ s.drop k2).count a + ((s.take k2).drop k1).count a =
      s.count a := by
  have h1 : s.take k1 ++ (s.take k2).drop k1 = s.take k2 := by
    have h := List.take_append_drop k1 (s.take k2)
    rwa [take_take_of_le h12] at h
  have h2 : s.count a = (s.take k2).count a + (s.drop k2).count a := by
    conv_lhs => rw [← List.take_append_drop k2 s]
    rw [List.count_append]
  have h3 : (s.take k2).count a =
      (s.take k1).count a + ((s.take k2).drop k1).count a := by
    conv_lhs => rw [← h1]
    rw [List.count_append]
  rw [List.count_append]
  omega

-- ───────────────────────── key-step evaluation lemmas ─────────────────────

theorem clamp_state_idem (s : App) : clamp_state (clamp_state s) = clamp_state s := by
  simp [clamp_state, clamp_cursor_idem]

theorem handle_overlay_keys_normal (key : KeyEvent) (s : App) (env : Env)
    (hm : s.mode = .normal) :
    handle_overlay_keys key s env = (false, clamp_state s) := by
  unfold handle_overlay_keys handle_overlay_inner
  simp only [clamp_state, hm]

theorem handle_key_char_step (s : App) (env : Env) (ch : Char)
    (hm : s.mode = .normal) (h1 : ch ≠ '@') (h2 : ch ≠ '/') :
    handle_key ⟨.char ch, false, false⟩ s env =
      mark_dirty
        { s with cursor := clamp_cursor s.input s.cursor + len_utf8 ch,
                 pending_gg := false,
                 input := (splitAtByte s.input (clamp_cursor s.input s.cursor)).1
                            ++ [ch]
                            ++ (splitAtByte s.input (clamp_cursor s.input s.cursor)).2 } := by
  unfold handle_key handle_key_inner
  rw [handle_overlay_keys_normal _ _ _ (by simp [clamp_state, hm]), clamp_state_idem]
  simp [clamp_state, h1, h2, mark_dirty]

theorem handle_key_attach_step (s : App) (env : Env) (data : Str)
    (hm : s.mode = .normal) (hcb : env.clipboard = .image data) :
    handle_key ⟨.char 'v', true, false⟩ s env =
      mark_dirty (set_toast
        { s with cursor := clamp_cursor s.input s.cursor + len_utf8 IMAGE_MARKER,
                 pending_gg := false,
                 input := (splitAtByte s.input (clamp_cursor s.input s.cursor)).1
                            ++ [IMAGE_MARKER]
                            ++ (splitAtByte s.input (clamp_cursor s.input s.cursor)).2,
                 attachments := s.attachments ++ [⟨data, str "image/png"⟩] }
        (str "Image attached")) := by
  unfold handle_key handle_key_inner
  rw [handle_overlay_keys_normal _ _ _ (by simp [clamp_state, hm]), clamp_state_idem]
  simp [clamp_state, hcb, mark_dirty, set_toast]

theorem handle_key_back_step (s : App) (env : Env) (hm : s.mode = .normal) :
    handle_key ⟨.backspace, false, false⟩ s env =
      (match handle_backspace s.input (clamp_cursor s.input s.cursor) with
       | some (nv, nc) =>
         mark_dirty
           { s with input := nv, cursor := nc, pending_gg := false,
                    attachments :=
                      if 0 < s.input.count IMAGE_MARKER - nv.count IMAGE_MARKER
                          && !s.attachments.isEmpty then
                        popN (s.input.count IMAGE_MARKER - nv.count IMAGE_MARKER)
                          s.attachments
                      else s.attachments }
       | none => { clamp_state s with pending_gg := false }) := by
  unfold handle_key handle_key_inner
  rw [handle_overlay_keys_normal _ _ _ (by simp [clamp_state, hm]), clamp_state_idem]
  cases hb : handle_backspace s.input (clamp_cursor s.input s.cursor) with
  | some p =>
    cases p with
    | mk nv nc =>
      by_cases hc : List.count IMAGE_MARKER nv < List.count IMAGE_MARKER s.input
          ∧ ¬s.attachments = []
      · simp [hb, mark_dirty, clamp_state, hc]
      · simp [hb, mark_dirty, clamp_state, hc]
  | none =>
    simp only [clamp_state]
    simp [hb, clamp_state]

-- ───────────────────────── editable-buffer invariant ──────────────────────

/-- The buffer-editing operations of the sentinel/attachment invariant:
typing a character, attaching a clipboard image via Ctrl+V, pressing
Backspace. -/
inductive EditOp
  | ins (ch : Char)
  | attach (data : Str)
  | back
deriving DecidableEq, Repr

/-- The key event performing an editing operation. -/
def edit_key : EditOp → KeyEvent
  | .ins ch => ⟨.char ch, false, false⟩
  | .attach _ => ⟨.char 'v', true, false⟩
  | .back => ⟨.backspace, false, false⟩

/-- The environment under which an editing operation runs: an image
attach finds that image on the clipboard, the other keys never consult
the environment. -/
def edit_env : EditOp → Env
  | .attach data => { env0 with clipboard := .image data }
  | _ => env0

/-- Run one editing operation through handle_key. -/
def apply_edit (op : EditOp) (s : App) : App :=
  handle_key (edit_key op) s (edit_env op)

/-- Run a sequence of editing operations. -/
def apply_edits (ops : List EditOp) (s : App) : App :=
  ops.foldl (fun s op => apply_edit op s) s

/-- Ordinary text insertion: not the reserved image sentinel and not the
mode-switching characters @ and / (which leave Normal mode). -/
def okEdit : EditOp → Bool
  | .ins ch => ch ≠ '@' && ch ≠ '/' && ch ≠ IMAGE_MARKER
  | _ => true

/-- The invariant of the editable buffer: as many image sentinels in the
input as pending attachment entries. -/
def editInv (s : App) : Prop :=
  s.input.count IMAGE_MARKER = s.attachments.length

theorem count_splice (s : Str) (i : Nat) (mid : Str) (a : Char) :
    ((splitAtByte s i).1 ++ mid ++ (splitAtByte s i).2).count a =
      s.count a + mid.count a := by
  rw [List.count_append, List.count_append]
  have h := congrArg (List.count a) (splitAtByte_fst_append_snd s i)
  rw [List.count_append] at h
  omega

theorem edit_step_inv {s : App} {op : EditOp} (hm : s.mode = .normal)
    (hok : okEdit op = true) (hinv : editInv s) :
    editInv (apply_edit op s) ∧ (apply_edit op s).mode = .normal := by
  have hsplit := splitAtByte_fst_append_snd s.input (clamp_cursor s.input s.cursor)
  cases op with
  | ins ch =>
    simp only [okEdit, Bool.and_eq_true, decide_eq_true_eq] at hok
    obtain ⟨⟨h1, h2⟩, h3⟩ := hok
    rw [apply_edit, edit_key, handle_key_char_step s _ ch hm h1 h2]
    have hmid : List.count IMAGE_MARKER [ch] = 0 := by
      simp [List.count_cons, h3]
    constructor
    · unfold editInv at hinv ⊢
      simp only [mark_dirty]
      rw [count_splice, hmid]
      omega
    · simp [mark_dirty, hm]
  | attach data =>
    rw [apply_edit, edit_key,
      handle_key_attach_step s _ data hm (by rfl)]
    have hmid : List.count IMAGE_MARKER [IMAGE_MARKER] = 1 := by
      simp [List.count_cons]
    constructor
    · unfold editInv at hinv ⊢
      simp only [mark_dirty, set_toast]
      rw [count_splice, hmid]
      simp
      omega
    · simp [mark_dirty, set_toast, hm]
  | back =>
    rw [apply_edit, edit_key, handle_key_back_step s _ hm]
    cases hb : handle_backspace s.input (clamp_cursor s.input s.cursor) with
    | none =>
      constructor
      · unfold editInv at hinv ⊢
        simpa [clamp_state] using hinv
      · simp [clamp_state, hm]
    | some p =>
      cases p with
      | mk nv nc =>
        obtain ⟨k1, k2, h12, h2len, hnv, -⟩ := handle_backspace_shape hb
        have hdec := count_take_drop IMAGE_MARKER s.input (Nat.le_of_lt h12)
        have hle : nv.count IMAGE_MARKER ≤ s.input.count IMAGE_MARKER := by
          rw [hnv]; omega
        set rem := s.input.count IMAGE_MARKER - nv.count IMAGE_MARKER with hrem
        constructor
        · unfold editInv at hinv ⊢
          simp only [mark_dirty]
          by_cases hzero : rem = 0
          · have : nv.count IMAGE_MARKER = s.input.count IMAGE_MARKER := by omega
            simp [hzero, this, hinv]
          · have hpos : 0 < rem := Nat.pos_of_ne_zero hzero
            have hattne : ¬s.attachments.isEmpty = true := by
              rw [List.isEmpty_iff]
              intro h0
              rw [h0] at hinv
              simp at hinv
              omega
            have hcond : (0 < rem && !s.attachments.isEmpty) = true := by
              simp [hpos, hattne]
            rw [hcond]
            simp only [if_true]
            rw [popN_length (by omega)]
            omega
        · simp [mark_dirty, hm]

theorem apply_edits_inv (ops : List EditOp) (s : App)
    (hok : ∀ op ∈ ops, okEdit op = true) (hm : s.mode = .normal)
    (hinv : editInv s) :
    editInv (apply_edits ops s) ∧ (apply_edits ops s).mode = .normal := by
  induction ops generalizing s with
  | nil => exact ⟨hinv, hm⟩
  | cons op rest ih =>
    have h1 := edit_step_inv hm (hok op (List.mem_cons_self op rest)) hinv
    have h2 := ih (apply_edit op s)
      (fun o ho => hok o (List.mem_cons_of_mem op ho)) h1.2 h1.1
    simpa [apply_edits] using h2

theorem backspace_image_pops_last {s : App} {k : Nat}
    (hm : s.mode = .normal) (hk : k < s.input.length)
    (hg : s.input[k]? = some IMAGE_MARKER)
    (hcur : s.cursor = byteLen (s.input.take (k + 1))) :
    (apply_edit .back s).input = s.input.take k ++ s.input.drop (k + 1) ∧
    (apply_edit .back s).cursor = byteLen (s.input.take k) ∧
    (apply_edit .back s).attachments = s.attachments.dropLast := by
  have hgs := List.getElem?_eq_getElem hk (l := s.input)
  rw [hgs] at hg
  have hget : s.input[k] = IMAGE_MARKER := Option.some.inj hg
  have hclamp : clamp_cursor s.input s.cursor = byteLen (s.input.take (k + 1)) := by
    rw [hcur]; exact clamp_cursor_take _ _
  have hb : handle_backspace s.input (clamp_cursor s.input s.cursor) =
      some (s.input.take k ++ s.input.drop (k + 1), byteLen (s.input.take k)) := by
    rw [hclamp, handle_backspace_take_succ hk, hget]
    rw [if_neg (by decide)]
  have hsucc := take_succ_concat hk
  rw [hget] at hsucc
  have hcnt : s.input.count IMAGE_MARKER =
      (s.input.take k ++ s.input.drop (k + 1)).count IMAGE_MARKER + 1 := by
    conv_lhs => rw [← List.take_append_drop (k + 1) s.input]
    rw [hsucc, List.append_assoc, List.count_append, List.count_append,
      List.count_append]
    simp [List.count_cons]
    omega
  have hrem : s.input.count IMAGE_MARKER -
      (s.input.take k ++ s.input.drop (k + 1)).count IMAGE_MARKER = 1 := by
    omega
  rw [apply_edit, edit_key, handle_key_back_step s _ hm, hb]
  simp only [hrem, mark_dirty]
  by_cases hatt : s.attachments.isEmpty
  · have hnil : s.attachments = [] := List.isEmpty_iff.mp hatt
    simp [hatt, hnil]
  · simp [hatt, popN_one_dropLast]

/-- Concrete state for the C1 counterexample: two image sentinels whose
attachments are distinguishable, cursor right after the first sentinel. -/
def c1CounterState : App :=
  { app0 with input := [IMAGE_MARKER, IMAGE_MARKER],
              cursor := 3,
              attachments := [⟨str "A", str "image/png"⟩, ⟨str "B", str "image/png"⟩] }

/-- C1 counterexample: deleting backward over the first image sentinel
(ordinal position 0) keeps the first attachment and drops the last one,
not the attachment at the deleted sentinel's ordinal position as the
claim requires (which would leave the second attachment). -/
theorem C1_counterexample :
    (apply_edit .back c1CounterState).input = [IMAGE_MARKER] ∧
    (apply_edit .back c1CounterState).attachments =
      [⟨str "A", str "image/png"⟩] ∧
    c1CounterState.attachments.eraseIdx 0 = [⟨str "B", str "image/png"⟩] ∧
    (apply_edit .back c1CounterState).attachments ≠
      c1CounterState.attachments.eraseIdx 0 := by
  refine ⟨by decide, by decide, by decide, by decide⟩

/-- C1 (amended): over any sequence of ordinary character insertions,
Ctrl+V image attaches and backward deletions performed in Normal mode,
the number of image sentinels in the buffer always equals the number of
pending attachment entries; and deleting backward over an image sentinel
removes exactly that sentinel and drops the last attachment entry (not
the entry at the sentinel's ordinal position). -/
theorem C1_amended :
    (∀ (ops : List EditOp) (s : App), (∀ op ∈ ops, okEdit op = true) →
        s.mode = .normal → editInv s → editInv (apply_edits ops s)) ∧
    (∀ (s : App) (k : Nat), s.mode = .normal → k < s.input.length →
        s.input[k]? = some IMAGE_MARKER →
        s.cursor = byteLen (s.input.take (k + 1)) →
        (apply_edit .back s).input = s.input.take k ++ s.input.drop (k + 1) ∧
        (apply_edit .back s).cursor = byteLen (s.input.take k) ∧
        (apply_edit .back s).attachments = s.attachments.dropLast) :=
  ⟨fun ops s hok hm hinv => (apply_edits_inv ops s hok hm hinv).1,
   fun _ _ hm hk hg hcur => backspace_image_pops_last hm hk hg hcur⟩

/-- Concrete state for the C1 witness: one image sentinel with one
attachment, cursor after the sentinel. -/
def c1WitState : App :=
  { app0 with input := [IMAGE_MARKER],
              cursor := 3,
              attachments := [⟨str "D", str "image/png"⟩] }

/-- Witness for C1_amended at concrete inputs. -/
theorem C1_amended_witness :
    editInv (apply_edits [EditOp.ins 'a', EditOp.attach (str "D"), EditOp.back] app0) ∧
    ((apply_edit .back c1WitState).input =
        c1WitState.input.take 0 ++ c1WitState.input.drop 1 ∧
      (apply_edit .back c1WitState).cursor = byteLen (c1WitState.input.take 0) ∧
      (apply_edit .back c1WitState).attachments =
        c1WitState.attachments.dropLast) :=
  ⟨C1_amended.1 _ app0 (by decide) rfl (by unfold editInv; decide),
   C1_amended.2 c1WitState 0 rfl (by decide) (by decide) (by decide)⟩

theorem handle_paste_wrap (s : App) (t : Str)
    (hm : s.mode = .normal) (ht : t ≠ [])
    (hprev : (prev_char_start s.input (clamp_cursor s.input s.cursor)).bind
        (fun i => (splitAtByte s.input i).2.head?) ≠ some PASTE_END)
    (hnext : char_at s.input (clamp_cursor s.input s.cursor) ≠ some PASTE_START) :
    handle_paste s t =
      mark_dirty
        { s with input := (splitAtByte s.input (clamp_cursor s.input s.cursor)).1
                   ++ (PASTE_START :: (t ++ [PASTE_END]))
                   ++ (splitAtByte s.input (clamp_cursor s.input s.cursor)).2,
                 cursor := clamp_cursor s.input s.cursor
                   + byteLen (PASTE_START :: (t ++ [PASTE_END])) } := by
  simp only [handle_paste]
  rw [if_pos hm, if_neg (by simpa [List.isEmpty_iff] using ht)]
  rw [if_neg hprev, if_neg hnext]
  simp [mark_dirty, List.append_assoc]

theorem handle_backspace_region (a t b : Str) (hS : PASTE_START ∉ t) :
    handle_backspace (((a ++ PASTE_START :: t) ++ [PASTE_END]) ++ b)
        (byteLen ((a ++ PASTE_START :: t) ++ [PASTE_END])) =
      some (a ++ b, byteLen a) := by
  have hbnd : isCharBoundary (((a ++ PASTE_START :: t) ++ [PASTE_END]) ++ b)
      (byteLen ((a ++ PASTE_START :: t) ++ [PASTE_END])) = true := by
    have h := isCharBoundary_take (((a ++ PASTE_START :: t) ++ [PASTE_END]) ++ b)
      ((a ++ PASTE_START :: t) ++ [PASTE_END]).length
    rwa [List.take_left] at h
  have h1 : splitAtByte (((a ++ PASTE_START :: t) ++ [PASTE_END]) ++ b)
      (byteLen (a ++ PASTE_START :: t)) = (a ++ PASTE_START :: t, [PASTE_END] ++ b) := by
    rw [List.append_assoc]
    exact splitAtByte_exact _ _
  have h2 : splitAtByte (((a ++ PASTE_START :: t) ++ [PASTE_END]) ++ b)
      (byteLen ((a ++ PASTE_START :: t) ++ [PASTE_END])) =
      ((a ++ PASTE_START :: t) ++ [PASTE_END], b) := splitAtByte_exact _ _
  have h3 : splitAtByte (((a ++ PASTE_START :: t) ++ [PASTE_END]) ++ b)
      (byteLen a) = (a, PASTE_START :: t ++ [PASTE_END] ++ b) := by
    have hsh : ((a ++ PASTE_START :: t) ++ [PASTE_END]) ++ b =
        a ++ (PASTE_START :: t ++ [PASTE_END] ++ b) := by
      simp [List.append_assoc]
    rw [hsh]
    exact splitAtByte_exact _ _
  have h4 : rfindChar (a ++ PASTE_START :: t) PASTE_START = some (byteLen a) :=
    rfindChar_last_marker a t hS
  simp only [handle_backspace]
  rw [clamp_cursor_id hbnd]
  rw [prev_char_start_append_last (a ++ PASTE_START :: t) PASTE_END b]
  simp only [h1, List.singleton_append, List.head?_cons]
  simp only [if_true]
  simp only [h4, h3, h2]

/-- Concrete state for the C5 counterexample: the buffer holds one paste
region and the cursor sits right after its end sentinel. -/
def c5CounterState : App :=
  { app0 with input := [PASTE_START, 'a', PASTE_END], cursor := 7 }

/-- C5 counterexample: pasting next to an existing paste region extends
that region, and the following backward deletion removes the whole merged
region, leaving the empty buffer rather than the pre-paste content
([PASTE_START, a, PASTE_END] with cursor 7). -/
theorem C5_counterexample :
    handle_backspace (handle_paste c5CounterState (str "b")).input
        (handle_paste c5CounterState (str "b")).cursor = some ([], 0) ∧
    some (([] : Str), 0) ≠ some (c5CounterState.input, c5CounterState.cursor) := by
  refine ⟨by decide, by decide⟩

/-- C5 (amended): for a cursor on a character boundary that is neither
directly after a paste-end sentinel nor directly before a paste-start
sentinel, pasting non-empty sentinel-free text in Normal mode and then
deleting backward restores the buffer and the cursor exactly. -/
theorem C5_amended (s : App) (t : Str)
    (hm : s.mode = .normal) (ht : t ≠ []) (hS : PASTE_START ∉ t)
    (hb : isCharBoundary s.input s.cursor = true)
    (hprev : (prev_char_start s.input s.cursor).bind
        (fun i => (splitAtByte s.input i).2.head?) ≠ some PASTE_END)
    (hnext : char_at s.input s.cursor ≠ some PASTE_START) :
    handle_backspace (handle_paste s t).input (handle_paste s t).cursor =
      some (s.input, s.cursor) := by
  have hcl : clamp_cursor s.input s.cursor = s.cursor := clamp_cursor_id hb
  have hw := handle_paste_wrap s t hm ht
    (by rw [hcl]; exact hprev) (by rw [hcl]; exact hnext)
  obtain ⟨k, hk_le, hkc⟩ := (isCharBoundary_iff _ _).mp hb
  have hsplit : splitAtByte s.input (clamp_cursor s.input s.cursor) =
      (s.input.take k, s.input.drop k) := by
    rw [hcl, ← hkc]
    exact splitAtByte_take_drop _ _
  rw [hw]
  simp only [mark_dirty]
  rw [hsplit]
  have hshape : s.input.take k ++ (PASTE_START :: (t ++ [PASTE_END])) ++ s.input.drop k
      = ((s.input.take k ++ PASTE_START :: t) ++ [PASTE_END]) ++ s.input.drop k := by
    simp [List.append_assoc]
  have hcur2 : clamp_cursor s.input s.cursor + byteLen (PASTE_START :: (t ++ [PASTE_END]))
      = byteLen ((s.input.take k ++ PASTE_START :: t) ++ [PASTE_END]) := by
    rw [hcl, ← hkc]
    simp [byteLen_append, byteLen_cons]
  rw [hshape, hcur2, handle_backspace_region _ _ _ hS]
  rw [List.take_append_drop, ← hkc]

/-- Witness for C5_amended: pasting one character into the empty buffer
and backspacing restores the empty buffer and cursor 0. -/
theorem C5_amended_witness :
    handle_backspace (handle_paste app0 (str "x")).input
        (handle_paste app0 (str "x")).cursor = some (app0.input, app0.cursor) :=
  C5_amended app0 (str "x") rfl (by decide) (by decide) (by decide)
    (by decide) (by decide)

/-- C3 counterexample: the pasted text "hi" is below both thresholds
(1 line < 3, 2 bytes < 150), yet pasting it in Normal mode wraps it in
the paste sentinels instead of splicing the raw text. -/
theorem C3_counterexample :
    rustLinesCount (str "hi") < PASTE_LINE_THRESHOLD ∧
    byteLen (str "hi") < PASTE_CHAR_THRESHOLD ∧
    (handle_paste app0 (str "hi")).input =
      PASTE_START :: (str "hi" ++ [PASTE_END]) ∧
    PASTE_START ∈ (handle_paste app0 (str "hi")).input := by
  refine ⟨by decide, by decide, by decide, by decide⟩

/-- C3 (amended): pasting non-empty text in Normal mode always wraps it
in the start/end sentinel pair before splicing, regardless of the
size/line thresholds (which only govern the collapsed display in the
renderer); only adjacency to an existing paste region changes this, by
splicing the raw text into that region. -/
theorem C3_amended (s : App) (t : Str)
    (hm : s.mode = .normal) (ht : t ≠ [])
    (hprev : (prev_char_start s.input (clamp_cursor s.input s.cursor)).bind
        (fun i => (splitAtByte s.input i).2.head?) ≠ some PASTE_END)
    (hnext : char_at s.input (clamp_cursor s.input s.cursor) ≠ some PASTE_START) :
    (handle_paste s t).input =
      (splitAtByte s.input (clamp_cursor s.input s.cursor)).1
        ++ (PASTE_START :: (t ++ [PASTE_END]))
        ++ (splitAtByte s.input (clamp_cursor s.input s.cursor)).2 ∧
    PASTE_START ∈ (handle_paste s t).input := by
  rw [handle_paste_wrap s t hm ht hprev hnext]
  refine ⟨by simp [mark_dirty], ?_⟩
  simp [mark_dirty, List.mem_append]

/-- Witness for C3_amended: pasting "hi" into the empty buffer. -/
theorem C3_amended_witness :
    (handle_paste app0 (str "hi")).input =
      (splitAtByte app0.input (clamp_cursor app0.input app0.cursor)).1
        ++ (PASTE_START :: (str "hi" ++ [PASTE_END]))
        ++ (splitAtByte app0.input (clamp_cursor app0.input app0.cursor)).2 ∧
    PASTE_START ∈ (handle_paste app0 (str "hi")).input :=
  C3_amended app0 (str "hi") rfl (by decide) (by decide) (by decide)

/-- C2 counterexample: with query "h" the filtered command list is
[history, reindex, todos, models]; in particular "models" IS returned
(its description "Change AI model" contains an h), contradicting the
claim that it is excluded. -/
theorem C2_counterexample :
    (filter_commands commands_list (str "h")).map (fun c => c.name) =
      [str "history", str "reindex", str "todos", str "models"] ∧
    str "models" ∈ (filter_commands commands_list (str "h")).map (fun c => c.name) := by
  refine ⟨by decide, by decide⟩

/-- C2 (amended): command filtering lowercases the trimmed query and
keeps a command when the query is a prefix of its name, a substring of
its lowercased description, or a prefix of its shortcut; a blank query
returns the full list.  For the full command list, query "h" returns
history, reindex, todos and models (models via its description). -/
theorem C2_amended :
    (filter_commands commands_list (str "h")).map (fun c => c.name) =
      [str "history", str "reindex", str "todos", str "models"] ∧
    (∀ (cmds : List CommandItem) (q : Str), trim q = [] →
      filter_commands cmds q = cmds) ∧
    (∀ (cmds : List CommandItem) (q : Str) (c : CommandItem), trim q ≠ [] →
      (c ∈ filter_commands cmds q ↔
        c ∈ cmds ∧ commandMatches c (toLower (trim q)) = true)) := by
  refine ⟨by decide, ?_, ?_⟩
  · intro cmds q hq
    unfold filter_commands
    rw [if_pos (by simpa [List.isEmpty_iff] using hq)]
  · intro cmds q c hq
    unfold filter_commands
    rw [if_neg (by simpa [List.isEmpty_iff] using hq)]
    simp [List.mem_filter]

/-- Witness for C2_amended: a blank query returns the full list, and the
membership characterization at query "h" and the history command. -/
theorem C2_amended_witness :
    filter_commands commands_list (str " ") = commands_list ∧
    (⟨str "history", some (str "h"), str "View session history",
        str "session:history"⟩ ∈ filter_commands commands_list (str "h") ↔
      ⟨str "history", some (str "h"), str "View session history",
        str "session:history"⟩ ∈ commands_list ∧
      commandMatches ⟨str "history", some (str "h"), str "View session history",
        str "session:history"⟩ (toLower (trim (str "h"))) = true) :=
  ⟨C2_amended.2.1 commands_list (str " ") (by decide),
   C2_amended.2.2 commands_list (str "h") _ (by decide)⟩

theorem upsert_timeline_events (s : App) (ev : TimelineEvent) :
    (upsert_timeline s ev).state.timeline_events =
      (match s.state.timeline_events.findIdx? (fun e => e.id == ev.id) with
       | some idx => s.state.timeline_events.set idx ev
       | none => s.state.timeline_events ++ [ev]) := by
  unfold upsert_timeline
  cases hidx : s.state.timeline_events.findIdx? (fun e => e.id == ev.id) with
  | some i =>
    simp only [hidx, mark_dirty]
    split <;> split <;> rfl
  | none =>
    simp only [hidx, mark_dirty]
    split <;> split <;> rfl

/-- C6: upserting a timeline event with an id already present replaces
exactly that entry in place (same length, every other position
untouched); an event with an unknown id is appended at the end; the
order is never re-sorted. -/
theorem C6_upsert :
    ∀ (s : App) (ev : TimelineEvent),
      (∀ i, s.state.timeline_events.findIdx? (fun e => e.id == ev.id) = some i →
        (upsert_timeline s ev).state.timeline_events =
          s.state.timeline_events.set i ev ∧
        (upsert_timeline s ev).state.timeline_events.length =
          s.state.timeline_events.length ∧
        ∀ j, j ≠ i → (upsert_timeline s ev).state.timeline_events[j]? =
          s.state.timeline_events[j]?) ∧
      (s.state.timeline_events.findIdx? (fun e => e.id == ev.id) = none →
        (upsert_timeline s ev).state.timeline_events =
          s.state.timeline_events ++ [ev]) := by
  intro s ev
  constructor
  · intro i hidx
    rw [upsert_timeline_events, hidx]
    refine ⟨rfl, by simp, ?_⟩
    intro j hj
    exact List.getElem?_set_ne (fun h => hj h.symm)
  · intro hidx
    rw [upsert_timeline_events, hidx]

/-- Concrete timeline events for the C6 witness. -/
def c6ev (i : String) (body : String) : TimelineEvent :=
  ⟨str i, str "sess", 0, str "assistant", str body, none, none, none, none,
    none, none⟩

/-- Witness for C6_upsert: replacing the second of two events in place,
and appending an unknown id. -/
theorem C6_upsert_witness :
    (upsert_timeline { app0 with state := { app0.state with
        timeline_events := [c6ev "e1" "x", c6ev "e2" "y"] } }
      (c6ev "e2" "z")).state.timeline_events =
      [c6ev "e1" "x", c6ev "e2" "y"].set 1 (c6ev "e2" "z") ∧
    (upsert_timeline app0 (c6ev "e9" "w")).state.timeline_events =
      app0.state.timeline_events ++ [c6ev "e9" "w"] :=
  ⟨((C6_upsert _ (c6ev "e2" "z")).1 1 (by decide)).1,
   (C6_upsert app0 (c6ev "e9" "w")).2 (by decide)⟩

/-- C8: when the session is not loading and the cache key (revision,
width, compact flag) matches, the cached lines are returned unchanged and
independently of the renderer (no recomputation) and the state is
untouched; while loading the cache is bypassed in both directions (always
recomputed, never written); on a key mismatch the lines are recomputed
and the cache replaced. -/
theorem C8_cache :
    ∀ (build : ChatState → Bool → Nat → Nat → List Str) (s : App) (width : Nat),
      (s.state.is_loading = true →
        build_timeline_lines_cached build s width =
          (build s.state s.compact_view width s.spinner_index, s)) ∧
      (s.state.is_loading = false →
        s.timeline_cache_rev = s.timeline_revision →
        s.timeline_cache_width = width →
        s.timeline_cache_compact = s.compact_view →
        build_timeline_lines_cached build s width = (s.timeline_cache, s)) ∧
      (s.state.is_loading = false →
        ¬(s.timeline_cache_rev = s.timeline_revision ∧
            s.timeline_cache_width = width ∧
            s.timeline_cache_compact = s.compact_view) →
        build_timeline_lines_cached build s width =
          (build s.state s.compact_view width s.spinner_index,
            { s with
                timeline_cache := build s.state s.compact_view width s.spinner_index,
                timeline_cache_rev := s.timeline_revision,
                timeline_cache_width := width,
                timeline_cache_compact := s.compact_view })) := by
  intro build s width
  refine ⟨?_, ?_, ?_⟩
  · intro hl
    unfold build_timeline_lines_cached
    rw [if_pos hl]
  · intro hl h1 h2 h3
    unfold build_timeline_lines_cached
    rw [if_neg (by simp [hl])]
    rw [if_pos (by simp [h1, h2, h3])]
  · intro hl hmix
    unfold build_timeline_lines_cached
    rw [if_neg (by simp [hl])]
    rw [if_neg (by simpa [Bool.and_eq_true, decide_eq_true_eq, and_assoc] using hmix)]

/-- A fixed renderer stand-in for the C8 witness. -/
def c8build : ChatState → Bool → Nat → Nat → List Str :=
  fun _ _ _ _ => [str "L"]

/-- Witness for C8_cache: a loading state recomputes without touching the
cache, the baseline state hits its cache, and a changed width misses and
replaces the cache. -/
theorem C8_cache_witness :
    build_timeline_lines_cached c8build
        { app0 with state := { app0.state with is_loading := true } } 0 =
      (c8build { app0.state with is_loading := true } app0.compact_view 0
          app0.spinner_index,
        { app0 with state := { app0.state with is_loading := true } }) ∧
    build_timeline_lines_cached c8build app0 0 = (app0.timeline_cache, app0) ∧
    build_timeline_lines_cached c8build app0 5 =
      (c8build app0.state app0.compact_view 5 app0.spinner_index,
        { app0 with
            timeline_cache := c8build app0.state app0.compact_view 5 app0.spinner_index,
            timeline_cache_rev := app0.timeline_revision,
            timeline_cache_width := 5,
            timeline_cache_compact := app0.compact_view }) :=
  ⟨(C8_cache c8build _ 0).1 rfl,
   (C8_cache c8build app0 0).2.1 rfl rfl rfl rfl,
   (C8_cache c8build app0 5).2.2 rfl (by decide)⟩

/-- Concrete state for the C4 counterexample: the pending-question
overlay is active and the session is not loading. -/
def c4State : App :=
  { app0 with mode := .questionPrompt,
              question := some ⟨str "q1", str "pick one", none,
                [⟨str "yes", none⟩], false, false, [false], 0, [], false⟩ }

/-- C4 counterexample: pressing Escape while the question prompt is
active issues no remote call at all — in particular no skip_question —
because the global Escape intercept in handle_key returns before the
overlay dispatch; the mode is still reset to Normal. -/
theorem C4_counterexample :
    (handle_key ⟨.esc, false, false⟩ c4State env0).mode = UiMode.normal ∧
    (handle_key ⟨.esc, false, false⟩ c4State env0).calls = [] ∧
    str "skip_question" ∉ (handle_key ⟨.esc, false, false⟩ c4State env0).calls := by
  refine ⟨by decide, by decide, by decide⟩

/-- C4 (amended): pressing Escape in any mode clamps the cursor, issues
an abort call exactly when the session is loading (and no other remote
call — the overlay modes' own Escape actions such as skip_question and
reset_plan_exit are unreachable from the key-handling entry point),
resets the mode to Normal, and marks the frame dirty; nothing else
changes. -/
theorem C4_amended (s : App) (env : Env) (ctrl alt : Bool) :
    handle_key ⟨.esc, ctrl, alt⟩ s env =
      { clamp_state s with
          mode := .normal
          dirty := true
          calls := s.calls ++ (if s.state.is_loading then [str "abort"] else []) } := by
  unfold handle_key handle_key_inner
  by_cases hl : (clamp_state s).state.is_loading
  · by_cases hmode : (clamp_state s).mode = UiMode.normal <;>
      simp [hl, hmode, pushCall, mark_dirty, clamp_state] <;>
      simp [clamp_state] at hl hmode <;>
      simp [hl, hmode]
  · by_cases hmode : (clamp_state s).mode = UiMode.normal <;>
      simp [hl, hmode, pushCall, mark_dirty, clamp_state] <;>
      simp [clamp_state] at hl hmode <;>
      simp [hl, hmode]

/-- C10: the cursor clamp always lands on a character boundary at or
below the end of the string, is the identity on indices already on a
boundary, and both key-handling entry points apply it before any other
operation: running either on a state whose cursor has been pre-clamped
gives exactly the same result as running it on the raw state. -/
theorem C10_clamp :
    (∀ (s : Str) (i : Nat), isCharBoundary s (clamp_cursor s i) = true ∧
        clamp_cursor s i ≤ byteLen s) ∧
    (∀ (s : Str) (i : Nat), isCharBoundary s i = true → clamp_cursor s i = i) ∧
    (∀ (key : KeyEvent) (s : App) (env : Env),
        handle_key key s env = handle_key key (clamp_state s) env ∧
        handle_overlay_keys key s env = handle_overlay_keys key (clamp_state s) env) :=
  ⟨fun s i => ⟨clamp_cursor_boundary s i, clamp_cursor_le_byteLen s i⟩,
   fun _ _ h => clamp_cursor_id h,
   fun key s env =>
     ⟨by unfold handle_key; rw [clamp_state_idem],
      by unfold handle_overlay_keys; rw [clamp_state_idem]⟩⟩

/-- Witness for C10_clamp: index 1 of "ab" is a boundary and is left
unchanged by the clamp. -/
theorem C10_clamp_witness : clamp_cursor (str "ab") 1 = 1 :=
  C10_clamp.2.1 (str "ab") 1 (by decide)

/-- C7: the response handling of call is as claimed (an error field
yields a failure carrying the error value, otherwise the result field
defaulting to null is returned), but when the worker's stdout closes
while a call awaits its reply the reader thread exits leaving the
pending entry (and its reply sender) in the table, so the recv
disconnection that the code would report as "Backend closed" never
happens and the call blocks forever: after the reader processes the
whole (empty, or unrelated) stream, pending id 1 is still present and
unfulfilled. -/
theorem C7_reader_close :
    (reader_run [] ⟨[1], [], []⟩).pendingIds = [1] ∧
    (reader_run [] ⟨[1], [], []⟩).fulfilled = [] ∧
    (reader_run [none, some (.obj [(str "id", .num 2), (str "result", .num 0)])]
        ⟨[1], [], []⟩).pendingIds = [1] ∧
    (∀ v : JVal, call_response (.obj [(str "result", v)]) = .ok v) ∧
    (∀ e : JVal, call_response (.obj [(str "error", e), (str "result", .null)]) =
      .error e) ∧
    call_response (.obj [(str "id", .num 1)]) = .ok .null := by
  refine ⟨rfl, rfl, by rfl, fun v => rfl, fun e => rfl, rfl⟩

-- ───────────────────────── string / group comparators ─────────────────────

theorem strCmp_eq_iff : ∀ (a b : Str), strCmp a b = .eq ↔ a = b
  | [], [] => by simp [strCmp]
  | [], _ :: _ => by simp [strCmp]
  | _ :: _, [] => by simp [strCmp]
  | a :: xs, b :: ys => by
    unfold strCmp
    by_cases h1 : a < b
    · simp [h1]
      intro h
      exact absurd (h ▸ h1) (lt_irrefl b)
    · by_cases h2 : b < a
      · simp [h1, h2]
        intro h
        exact absurd (h ▸ h2) (lt_irrefl b)
      · have hab : a = b := le_antisymm (not_lt.mp h2) (not_lt.mp h1)
        simp [h1, h2, hab, strCmp_eq_iff xs ys]

theorem strCmp_swap : ∀ (a b : Str), (strCmp a b).swap = strCmp b a
  | [], [] => rfl
  | [], _ :: _ => rfl
  | _ :: _, [] => rfl
  | a :: xs, b :: ys => by
    unfold strCmp
    by_cases h1 : a < b
    · simp [h1, lt_asymm h1, Ordering.swap]
    · by_cases h2 : b < a
      · simp [h1, h2, Ordering.swap]
      · simp [h1, h2, strCmp_swap xs ys]

theorem strCmp_cons (a b : Char) (xs ys : Str) :
    strCmp (a :: xs) (b :: ys) =
      if a < b then .lt else if b < a then .gt else strCmp xs ys := rfl

theorem strCmp_cons_lt_iff (a b : Char) (xs ys : Str) :
    strCmp (a :: xs) (b :: ys) = .lt ↔ a < b ∨ (a = b ∧ strCmp xs ys = .lt) := by
  rw [strCmp_cons]
  by_cases h1 : a < b
  · simp [h1]
  · by_cases h2 : b < a
    · simp [h1, h2]
      intro h
      exact absurd (h ▸ h2) (lt_irrefl b)
    · have hab : a = b := le_antisymm (not_lt.mp h2) (not_lt.mp h1)
      simp [h1, h2, hab]

theorem strCmp_nil_lt_iff (c : Str) : strCmp [] c = .lt ↔ c ≠ [] := by
  cases c <;> simp [strCmp]

theorem strCmp_lt_trans : ∀ (a b c : Str),
    strCmp a b = .lt → strCmp b c = .lt → strCmp a c = .lt
  | [], b, c => by
    intro h1 h2
    rw [strCmp_nil_lt_iff]
    intro hc
    subst hc
    cases b with
    | nil => simp [strCmp] at h2
    | cons y ys => simp [strCmp] at h2
  | _ :: _, [], _ => by intro h1; simp [strCmp] at h1
  | _ :: _, _ :: _, [] => by intro _ h2; simp [strCmp] at h2
  | a :: xs, b :: ys, c :: zs => by
    intro h1 h2
    rw [strCmp_cons_lt_iff] at h1 h2 ⊢
    rcases h1 with h1 | ⟨rfl, h1⟩
    · rcases h2 with h2 | ⟨rfl, h2⟩
      · exact Or.inl (lt_trans h1 h2)
      · exact Or.inl h1
    · rcases h2 with h2 | ⟨rfl, h2⟩
      · exact Or.inl h2
      · exact Or.inr ⟨rfl, strCmp_lt_trans xs ys zs h1 h2⟩

theorem strCmp_gt_iff_swap (a b : Str) : strCmp a b = .gt ↔ strCmp b a = .lt := by
  rw [← strCmp_swap a b]
  cases strCmp a b <;> simp [Ordering.swap]

theorem strCmp_le_trans {a b c : Str}
    (h1 : strCmp a b ≠ .gt) (h2 : strCmp b c ≠ .gt) : strCmp a c ≠ .gt := by
  cases hab : strCmp a b with
  | gt => exact absurd hab h1
  | eq =>
    rw [(strCmp_eq_iff a b).mp hab]
    exact h2
  | lt =>
    cases hbc : strCmp b c with
    | gt => exact absurd hbc h2
    | eq =>
      rw [← (strCmp_eq_iff b c).mp hbc]
      simp [hab]
    | lt =>
      have := strCmp_lt_trans a b c hab hbc
      simp [this]

/-- The openai test sort_models_by_provider applies to a group key. -/
def isOpenaiGroup (g : Str) : Prop := toLower g = str "openai"

instance (g : Str) : Decidable (isOpenaiGroup g) := by
  unfold isOpenaiGroup
  infer_instance

theorem groupCmp_lt_of {a b : Str} (ha : isOpenaiGroup a) (hb : ¬isOpenaiGroup b) :
    groupCmp a b = .lt := by
  unfold groupCmp
  simp only [isOpenaiGroup] at ha hb
  simp [ha, hb]

theorem groupCmp_gt_of {a b : Str} (ha : ¬isOpenaiGroup a) (hb : isOpenaiGroup b) :
    groupCmp a b = .gt := by
  unfold groupCmp
  simp only [isOpenaiGroup] at ha hb
  simp [ha, hb]

theorem groupCmp_eq_strCmp {a b : Str}
    (h : isOpenaiGroup a ↔ isOpenaiGroup b) : groupCmp a b = strCmp a b := by
  unfold groupCmp
  simp only [isOpenaiGroup] at h
  by_cases ha : toLower a = str "openai"
  · simp [ha, h.mp ha]
  · have hb : ¬toLower b = str "openai" := fun hb => ha (h.mpr hb)
    simp [ha, hb]

theorem groupCmp_eq_iff (a b : Str) : groupCmp a b = .eq ↔ a = b := by
  by_cases ha : isOpenaiGroup a <;> by_cases hb : isOpenaiGroup b
  · rw [groupCmp_eq_strCmp (iff_of_true ha hb)]
    exact strCmp_eq_iff a b
  · rw [groupCmp_lt_of ha hb]
    simp
    intro h
    exact hb (h ▸ ha)
  · rw [groupCmp_gt_of ha hb]
    simp
    intro h
    exact ha (h ▸ hb)
  · rw [groupCmp_eq_strCmp (iff_of_false ha hb)]
    exact strCmp_eq_iff a b

theorem groupCmp_gt_asymm {a b : Str} (h : groupCmp a b = .gt) :
    groupCmp b a ≠ .gt := by
  by_cases ha : isOpenaiGroup a <;> by_cases hb : isOpenaiGroup b
  · rw [groupCmp_eq_strCmp (iff_of_true ha hb)] at h
    rw [groupCmp_eq_strCmp (iff_of_true hb ha)]
    rw [(strCmp_gt_iff_swap a b).mp h]
    simp
  · rw [groupCmp_lt_of ha hb] at h
    cases h
  · rw [groupCmp_lt_of hb ha]
    simp
  · rw [groupCmp_eq_strCmp (iff_of_false ha hb)] at h
    rw [groupCmp_eq_strCmp (iff_of_false hb ha)]
    rw [(strCmp_gt_iff_swap a b).mp h]
    simp

theorem groupCmp_le_trans {a b c : Str}
    (h1 : groupCmp a b ≠ .gt) (h2 : groupCmp b c ≠ .gt) : groupCmp a c ≠ .gt := by
  by_cases ha : isOpenaiGroup a <;> by_cases hb : isOpenaiGroup b <;>
    by_cases hc : isOpenaiGroup c
  · rw [groupCmp_eq_strCmp (iff_of_true ha hb)] at h1
    rw [groupCmp_eq_strCmp (iff_of_true hb hc)] at h2
    rw [groupCmp_eq_strCmp (iff_of_true ha hc)]
    exact strCmp_le_trans h1 h2
  · rw [groupCmp_lt_of ha hc]
    simp
  · exact absurd (groupCmp_gt_of hb hc) h2
  · rw [groupCmp_lt_of ha hc]
    simp
  · exact absurd (groupCmp_gt_of ha hb) h1
  · exact absurd (groupCmp_gt_of ha hb) h1
  · exact absurd (groupCmp_gt_of hb hc) h2
  · rw [groupCmp_eq_strCmp (iff_of_false ha hb)] at h1
    rw [groupCmp_eq_strCmp (iff_of_false hb hc)] at h2
    rw [groupCmp_eq_strCmp (iff_of_false ha hc)]
    exact strCmp_le_trans h1 h2

-- ───────────────────────── stable-sort lemmas ──────────────────────────────

/-- The non-strict order induced by a comparator. -/
def leOf (cmp : α → α → Ordering) (a b : α) : Prop := cmp a b ≠ .gt

theorem insertCmp_perm (cmp : α → α → Ordering) (x : α) (l : List α) :
    (insertCmp cmp x l).Perm (x :: l) := by
  induction l with
  | nil => exact List.Perm.refl _
  | cons y ys ih =>
    unfold insertCmp
    by_cases h : cmp x y = .gt
    · rw [if_pos h]
      exact (ih.cons y).trans (List.Perm.swap x y ys)
    · rw [if_neg h]

theorem sortCmp_perm (cmp : α → α → Ordering) (l : List α) :
    (sortCmp cmp l).Perm l := by
  induction l with
  | nil => exact List.Perm.refl _
  | cons x xs ih =>
    exact (insertCmp_perm cmp x (sortCmp cmp xs)).trans (ih.cons x)

theorem mem_insertCmp {cmp : α → α → Ordering} {x z : α} {l : List α}
    (h : z ∈ insertCmp cmp x l) : z = x ∨ z ∈ l := by
  have hp := (insertCmp_perm cmp x l).mem_iff.mp h
  simpa using hp

theorem insertCmp_pairwise {cmp : α → α → Ordering}
    (hasym : ∀ a b, cmp a b = .gt → cmp b a ≠ .gt)
    (htrans : ∀ a b c, leOf cmp a b → leOf cmp b c → leOf cmp a c)
    (x : α) {l : List α} (hl : l.Pairwise (leOf cmp)) :
    (insertCmp cmp x l).Pairwise (leOf cmp) := by
  induction l with
  | nil => simp [insertCmp, leOf]
  | cons y ys ih =>
    cases hl with
    | cons hy hys =>
      unfold insertCmp
      by_cases h : cmp x y = .gt
      · rw [if_pos h]
        refine List.Pairwise.cons ?_ (ih hys)
        intro z hz
        rcases mem_insertCmp hz with rfl | hzys
        · exact hasym _ _ h
        · exact hy z hzys
      · rw [if_neg h]
        refine List.Pairwise.cons ?_ (List.Pairwise.cons hy hys)
        intro z hz
        rcases List.mem_cons.mp hz with rfl | hz
        · exact h
        · exact htrans x y z h (hy z hz)

theorem sortCmp_pairwise {cmp : α → α → Ordering}
    (hasym : ∀ a b, cmp a b = .gt → cmp b a ≠ .gt)
    (htrans : ∀ a b c, leOf cmp a b → leOf cmp b c → leOf cmp a c)
    (l : List α) : (sortCmp cmp l).Pairwise (leOf cmp) := by
  induction l with
  | nil => simp [sortCmp]
  | cons x xs ih => exact insertCmp_pairwise hasym htrans x ih

theorem insertCmp_cons (cmp : α → α → Ordering) (x y : α) (ys : List α) :
    insertCmp cmp x (y :: ys) =
      if cmp x y = .gt then y :: insertCmp cmp x ys else x :: y :: ys := rfl

theorem insertCmp_append_of_sat {cmp : α → α → Ordering} {P : α → Prop}
    (hstop : ∀ a b, P a → ¬P b → cmp a b ≠ .gt)
    {x : α} (hx : P x) (xs : List α) {ys : List α} (hys : ∀ y ∈ ys, ¬P y) :
    insertCmp cmp x (xs ++ ys) = insertCmp cmp x xs ++ ys := by
  induction xs with
  | nil =>
    cases ys with
    | nil => rfl
    | cons y ys' =>
      show insertCmp cmp x (y :: ys') = [x] ++ (y :: ys')
      rw [insertCmp_cons, if_neg (hstop x y hx (hys y (List.mem_cons_self y ys')))]
      rfl
  | cons z xs' ih =>
    rw [List.cons_append, insertCmp_cons, insertCmp_cons]
    by_cases h : cmp x z = .gt
    · rw [if_pos h, if_pos h, ih, List.cons_append]
    · rw [if_neg h, if_neg h, List.cons_append, List.cons_append]

theorem insertCmp_append_of_unsat {cmp : α → α → Ordering} {P : α → Prop}
    (hskip : ∀ a b, ¬P a → P b → cmp a b = .gt)
    {x : α} (hx : ¬P x) {xs : List α} (hxs : ∀ y ∈ xs, P y) (ys : List α) :
    insertCmp cmp x (xs ++ ys) = xs ++ insertCmp cmp x ys := by
  induction xs with
  | nil => rfl
  | cons z xs' ih =>
    rw [List.cons_append, insertCmp_cons]
    rw [if_pos (hskip x z hx (hxs z (List.mem_cons_self z xs')))]
    rw [ih (fun y hy => hxs y (List.mem_cons_of_mem z hy)), List.cons_append]

theorem sortCmp_partition {cmp : α → α → Ordering} {P : α → Prop}
    (hstop : ∀ a b, P a → ¬P b → cmp a b ≠ .gt)
    (hskip : ∀ a b, ¬P a → P b → cmp a b = .gt)
    (l : List α) :
    ∃ xs ys, sortCmp cmp l = xs ++ ys ∧ (∀ e ∈ xs, P e) ∧ (∀ e ∈ ys, ¬P e) := by
  induction l with
  | nil => exact ⟨[], [], rfl, by simp, by simp⟩
  | cons g l' ih =>
    obtain ⟨xs, ys, heq, hxs, hys⟩ := ih
    by_cases hg : P g
    · refine ⟨insertCmp cmp g xs, ys, ?_, ?_, hys⟩
      · show insertCmp cmp g (sortCmp cmp l') = _
        rw [heq, insertCmp_append_of_sat hstop hg xs hys]
      · intro e he
        rcases mem_insertCmp he with rfl | he
        · exact hg
        · exact hxs e he
    · refine ⟨xs, insertCmp cmp g ys, ?_, hxs, ?_⟩
      · show insertCmp cmp g (sortCmp cmp l') = _
        rw [heq, insertCmp_append_of_unsat hskip hg hxs ys]
      · intro e he
        rcases mem_insertCmp he with rfl | he
        · exact hg
        · exact hys e he

-- ───────────────────────── group-map lemmas ────────────────────────────────

/-- The entries stored in a group association list, in iteration order. -/
def groupsFlat (gs : List (Str × List ModelEntry)) : List ModelEntry :=
  (gs.map (fun g => g.2)).flatten

theorem insertGroup_cons (k : Str) (items : List ModelEntry)
    (rest : List (Str × List ModelEntry)) (e : ModelEntry) :
    insertGroup ((k, items) :: rest) e =
      (match strCmp e.group k with
       | .lt => (e.group, [e]) :: (k, items) :: rest
       | .eq => (k, items ++ [e]) :: rest
       | .gt => (k, items) :: insertGroup rest e) := rfl

theorem insertGroup_flat_perm (gs : List (Str × List ModelEntry)) (e : ModelEntry) :
    (groupsFlat (insertGroup gs e)).Perm (e :: groupsFlat gs) := by
  induction gs with
  | nil => exact List.Perm.refl _
  | cons g rest ih =>
    cases g with
    | mk k items =>
      rw [insertGroup_cons]
      cases hcmp : strCmp e.group k with
      | lt => exact List.Perm.refl _
      | eq =>
        show ((items ++ [e]) ++ groupsFlat rest).Perm (e :: (items ++ groupsFlat rest))
        exact (List.perm_append_singleton e items).append_right _
      | gt =>
        show (items ++ groupsFlat (insertGroup rest e)).Perm
          (e :: (items ++ groupsFlat rest))
        exact (ih.append_left items).trans List.perm_middle

theorem foldl_insertGroup_flat_perm (entries : List ModelEntry) :
    ∀ gs, (groupsFlat (entries.foldl insertGroup gs)).Perm
      (groupsFlat gs ++ entries) := by
  induction entries with
  | nil => intro gs; simp [List.foldl]
  | cons e rest ih =>
    intro gs
    show (groupsFlat ((rest).foldl insertGroup (insertGroup gs e))).Perm _
    exact (ih (insertGroup gs e)).trans
      (((insertGroup_flat_perm gs e).append_right rest).trans List.perm_middle.symm)

theorem buildGroups_flat_perm (entries : List ModelEntry) :
    (groupsFlat (buildGroups entries)).Perm entries := by
  have h := foldl_insertGroup_flat_perm entries []
  simpa [groupsFlat, buildGroups] using h

/-- Homogeneity: each group's entries carry exactly the group's key. -/
def GroupsOk (gs : List (Str × List ModelEntry)) : Prop :=
  ∀ g ∈ gs, ∀ e ∈ g.2, e.group = g.1

theorem insertGroup_ok {gs : List (Str × List ModelEntry)} {e : ModelEntry}
    (h : GroupsOk gs) : GroupsOk (insertGroup gs e) := by
  induction gs with
  | nil =>
    intro g hg e' he'
    simp [insertGroup] at hg
    subst hg
    simp at he'
    subst he'
    rfl
  | cons g0 rest ih =>
    cases g0 with
    | mk k items =>
      intro g hg e' he'
      rw [insertGroup_cons] at hg
      cases hcmp : strCmp e.group k with
      | lt =>
        rw [hcmp] at hg
        rcases List.mem_cons.mp hg with rfl | hg
        · simp at he'
          subst he'
          rfl
        · exact h g hg e' he'
      | eq =>
        rw [hcmp] at hg
        rcases List.mem_cons.mp hg with rfl | hg
        · rcases List.mem_append.mp he' with he' | he'
          · exact h (k, items) (List.mem_cons_self _ _) e' he'
          · simp at he'
            subst he'
            exact (strCmp_eq_iff _ k).mp hcmp
        · exact h g (List.mem_cons_of_mem _ hg) e' he'
      | gt =>
        rw [hcmp] at hg
        rcases List.mem_cons.mp hg with rfl | hg
        · exact h (k, items) (List.mem_cons_self _ _) e' he'
        · exact ih (fun g' hg' => h g' (List.mem_cons_of_mem _ hg')) g hg e' he'

theorem buildGroups_ok (entries : List ModelEntry) : GroupsOk (buildGroups entries) := by
  have hgen : ∀ (l : List ModelEntry) (gs : List (Str × List ModelEntry)),
      GroupsOk gs → GroupsOk (l.foldl insertGroup gs) := by
    intro l
    induction l with
    | nil => intro gs h; exact h
    | cons e rest ih =>
      intro gs h
      exact ih (insertGroup gs e) (insertGroup_ok h)
  exact hgen entries [] (by intro g hg; cases hg)

/-- Keys of the group association list are strictly ascending. -/
def KeysSorted (gs : List (Str × List ModelEntry)) : Prop :=
  gs.Pairwise (fun g1 g2 => strCmp g1.1 g2.1 = .lt)

theorem mem_insertGroup_key {gs : List (Str × List ModelEntry)} {e : ModelEntry}
    {g' : Str × List ModelEntry} (h : g' ∈ insertGroup gs e) :
    g'.1 = e.group ∨ ∃ g ∈ gs, g'.1 = g.1 := by
  induction gs with
  | nil =>
    simp [insertGroup] at h
    subst h
    exact Or.inl rfl
  | cons g0 rest ih =>
    cases g0 with
    | mk k items =>
      rw [insertGroup_cons] at h
      cases hcmp : strCmp e.group k with
      | lt =>
        rw [hcmp] at h
        rcases List.mem_cons.mp h with rfl | h
        · exact Or.inl rfl
        · exact Or.inr ⟨g', h, rfl⟩
      | eq =>
        rw [hcmp] at h
        rcases List.mem_cons.mp h with rfl | h
        · exact Or.inr ⟨(k, items), List.mem_cons_self _ _, rfl⟩
        · exact Or.inr ⟨g', List.mem_cons_of_mem _ h, rfl⟩
      | gt =>
        rw [hcmp] at h
        rcases List.mem_cons.mp h with rfl | h
        · exact Or.inr ⟨(k, items), List.mem_cons_self _ _, rfl⟩
        · rcases ih h with h' | ⟨g, hg, h'⟩
          · exact Or.inl h'
          · exact Or.inr ⟨g, List.mem_cons_of_mem _ hg, h'⟩

theorem insertGroup_keysSorted {gs : List (Str × List ModelEntry)}
    (h : KeysSorted gs) (e : ModelEntry) : KeysSorted (insertGroup gs e) := by
  induction gs with
  | nil => simp [insertGroup, KeysSorted]
  | cons g0 rest ih =>
    cases g0 with
    | mk k items =>
      rw [KeysSorted, insertGroup_cons]
      cases h with
      | cons hk hrest =>
        cases hcmp : strCmp e.group k with
        | lt =>
          refine List.Pairwise.cons ?_ (List.Pairwise.cons hk hrest)
          intro g hg
          rcases List.mem_cons.mp hg with rfl | hg
          · exact hcmp
          · exact strCmp_lt_trans _ _ _ hcmp (hk g hg)
        | eq => exact List.Pairwise.cons hk hrest
        | gt =>
          refine List.Pairwise.cons ?_ (ih hrest)
          intro g hg
          rcases mem_insertGroup_key hg with hg' | ⟨g0, hg0, hg'⟩
          · rw [hg']
            exact (strCmp_gt_iff_swap e.group k).mp hcmp
          · rw [hg']
            exact hk g0 hg0

theorem buildGroups_keysSorted (entries : List ModelEntry) :
    KeysSorted (buildGroups entries) := by
  have hgen : ∀ (l : List ModelEntry) (gs : List (Str × List ModelEntry)),
      KeysSorted gs → KeysSorted (l.foldl insertGroup gs) := by
    intro l
    induction l with
    | nil => intro gs h; exact h
    | cons e rest ih => intro gs h; exact ih (insertGroup gs e) (insertGroup_keysSorted h e)
  exact hgen entries [] List.Pairwise.nil

theorem flatten_map_sortName_perm (gs : List (Str × List ModelEntry)) :
    ((gs.map (fun g => sortCmp (fun a b => strCmp a.name b.name) g.2)).flatten).Perm
      (groupsFlat gs) := by
  induction gs with
  | nil => exact List.Perm.refl _
  | cons g rest ih =>
    show (sortCmp (fun a b => strCmp a.name b.name) g.2 ++ _).Perm (g.2 ++ _)
    exact (sortCmp_perm _ g.2).append ih

/-- C9: the claim fails — grouping is by the exact group string, so the
case variants openai and OpenAI form two separate groups; the openai
block is then ordered by exact group key, not globally name-sorted:
entries named a (group openai) and z (group OpenAI) come out [z, a]. -/
theorem C9_counterexample :
    ((sort_models_by_provider
      [⟨str "m1", str "a", none, none, str "openai", none⟩,
       ⟨str "m2", str "z", none, none, str "OpenAI", none⟩]).map (fun e => e.name) =
      [str "z", str "a"]) ∧
    ¬ ((sort_models_by_provider
      [⟨str "m1", str "a", none, none, str "openai", none⟩,
       ⟨str "m2", str "z", none, none, str "OpenAI", none⟩]).map (fun e => e.name)).Pairwise
      (fun a b => strCmp a b ≠ .gt) := by decide

/-- C9 (amended): sort_models_by_provider permutes the entries; every
entry whose group lowercases to openai comes before every entry whose
group does not; and consecutive entries are either in strictly ascending
group order (openai-lowercasing groups first, then lexically by the exact
group string) or share the exact same group string and are in
non-descending name order. Within the openai block the case-variant
groups stay separate, ordered lexically by exact key, so the block as a
whole is not name-sorted. -/
theorem C9_amended (entries : List ModelEntry) :
    (sort_models_by_provider entries).Perm entries ∧
    (∃ xs ys, sort_models_by_provider entries = xs ++ ys ∧
      (∀ e ∈ xs, isOpenaiGroup e.group) ∧ (∀ e ∈ ys, ¬isOpenaiGroup e.group)) ∧
    (sort_models_by_provider entries).Pairwise (fun e1 e2 =>
      groupCmp e1.group e2.group = .lt ∨
        (e1.group = e2.group ∧ strCmp e1.name e2.name ≠ .gt)) := by
  have hok := buildGroups_ok entries
  have hOGperm : (sortCmp (fun a b => groupCmp a.1 b.1) (buildGroups entries)).Perm
      (buildGroups entries) := sortCmp_perm _ _
  have hok' : ∀ g ∈ sortCmp (fun a b => groupCmp a.1 b.1) (buildGroups entries),
      ∀ e ∈ g.2, e.group = g.1 :=
    fun g hg => hok g (hOGperm.mem_iff.mp hg)
  have hperm : (sort_models_by_provider entries).Perm entries := by
    simp only [sort_models_by_provider]
    have hmid : (groupsFlat (sortCmp (fun a b => groupCmp a.1 b.1)
        (buildGroups entries))).Perm (groupsFlat (buildGroups entries)) :=
      (hOGperm.map (fun g : Str × List ModelEntry => g.2)).flatten
    exact (flatten_map_sortName_perm _).trans
      (hmid.trans (buildGroups_flat_perm entries))
  have hstop : ∀ a b : Str × List ModelEntry,
      isOpenaiGroup a.1 → ¬isOpenaiGroup b.1 → groupCmp a.1 b.1 ≠ .gt := by
    intro a b ha hb
    rw [groupCmp_lt_of ha hb]
    simp
  have hskip : ∀ a b : Str × List ModelEntry,
      ¬isOpenaiGroup a.1 → isOpenaiGroup b.1 → groupCmp a.1 b.1 = .gt :=
    fun a b ha hb => groupCmp_gt_of ha hb
  obtain ⟨gxs, gys, hsplit, hgxs, hgys⟩ :=
    sortCmp_partition hstop hskip (buildGroups entries)
  have hsplitmem : ∀ g, g ∈ gxs ∨ g ∈ gys → g ∈ buildGroups entries := by
    intro g hg
    have hmem : g ∈ gxs ++ gys := by
      rcases hg with hg | hg
      · exact List.mem_append_left _ hg
      · exact List.mem_append_right _ hg
    rw [← hsplit] at hmem
    exact hOGperm.mem_iff.mp hmem
  have h2 : ∃ xs ys, sort_models_by_provider entries = xs ++ ys ∧
      (∀ e ∈ xs, isOpenaiGroup e.group) ∧ (∀ e ∈ ys, ¬isOpenaiGroup e.group) := by
    refine ⟨((gxs.map (fun g => sortCmp (fun a b => strCmp a.name b.name) g.2)).flatten),
      ((gys.map (fun g => sortCmp (fun a b => strCmp a.name b.name) g.2)).flatten),
      ?_, ?_, ?_⟩
    · simp only [sort_models_by_provider]
      rw [hsplit, List.map_append, List.flatten_append]
    · intro e he
      rw [List.mem_flatten] at he
      obtain ⟨l, hl, hel⟩ := he
      rw [List.mem_map] at hl
      obtain ⟨g, hg, rfl⟩ := hl
      have heg : e ∈ g.2 := (sortCmp_perm _ g.2).mem_iff.mp hel
      rw [hok g (hsplitmem g (Or.inl hg)) e heg]
      exact hgxs g hg
    · intro e he
      rw [List.mem_flatten] at he
      obtain ⟨l, hl, hel⟩ := he
      rw [List.mem_map] at hl
      obtain ⟨g, hg, rfl⟩ := hl
      have heg : e ∈ g.2 := (sortCmp_perm _ g.2).mem_iff.mp hel
      rw [hok g (hsplitmem g (Or.inr hg)) e heg]
      exact hgys g hg
  have h3 : (sort_models_by_provider entries).Pairwise (fun e1 e2 =>
      groupCmp e1.group e2.group = .lt ∨
        (e1.group = e2.group ∧ strCmp e1.name e2.name ≠ .gt)) := by
    simp only [sort_models_by_provider]
    rw [List.pairwise_flatten]
    constructor
    · intro l hl
      rw [List.mem_map] at hl
      obtain ⟨g, hg, rfl⟩ := hl
      have hasymN : ∀ a b : ModelEntry,
          strCmp a.name b.name = .gt → strCmp b.name a.name ≠ .gt := by
        intro a b hab
        rw [(strCmp_gt_iff_swap a.name b.name).mp hab]
        simp
      have htransN : ∀ a b c : ModelEntry,
          strCmp a.name b.name ≠ .gt → strCmp b.name c.name ≠ .gt →
            strCmp a.name c.name ≠ .gt :=
        fun a b c h1 h2 => strCmp_le_trans h1 h2
      have hpw := sortCmp_pairwise hasymN htransN g.2
      refine List.Pairwise.imp_of_mem ?_ hpw
      intro a b ha hb hab
      have ha2 : a ∈ g.2 := (sortCmp_perm _ g.2).mem_iff.mp ha
      have hb2 : b ∈ g.2 := (sortCmp_perm _ g.2).mem_iff.mp hb
      exact Or.inr ⟨(hok' g hg a ha2).trans (hok' g hg b hb2).symm, hab⟩
    · rw [List.pairwise_map]
      have hasymG : ∀ a b : Str × List ModelEntry,
          groupCmp a.1 b.1 = .gt → groupCmp b.1 a.1 ≠ .gt :=
        fun a b h => groupCmp_gt_asymm h
      have htransG : ∀ a b c : Str × List ModelEntry,
          groupCmp a.1 b.1 ≠ .gt → groupCmp b.1 c.1 ≠ .gt → groupCmp a.1 c.1 ≠ .gt :=
        fun a b c h1 h2 => groupCmp_le_trans h1 h2
      have hle := sortCmp_pairwise hasymG htransG (buildGroups entries)
      have hne_built : (buildGroups entries).Pairwise (fun g1 g2 => g1.1 ≠ g2.1) := by
        refine (buildGroups_keysSorted entries).imp ?_
        intro g1 g2 h heq
        rw [heq, (strCmp_eq_iff g2.1 g2.1).mpr rfl] at h
        exact Ordering.noConfusion h
      have hsy : ∀ {x y : Str × List ModelEntry}, x.1 ≠ y.1 → y.1 ≠ x.1 :=
        fun h => h.symm
      have hne := (hOGperm.pairwise_iff hsy).mpr hne_built
      have hlt : (sortCmp (fun a b => groupCmp a.1 b.1) (buildGroups entries)).Pairwise
          (fun g1 g2 => groupCmp g1.1 g2.1 = .lt) := by
        refine (hle.and hne).imp ?_
        intro g1 g2 hcomb
        obtain ⟨h1, h2⟩ := hcomb
        cases hc : groupCmp g1.1 g2.1 with
        | lt => rfl
        | eq => exact absurd ((groupCmp_eq_iff g1.1 g2.1).mp hc) h2
        | gt => exact absurd hc h1
      refine List.Pairwise.imp_of_mem ?_ hlt
      intro g1 g2 hg1 hg2 hlt12 x hx y hy
      have hx2 : x ∈ g1.2 := (sortCmp_perm _ g1.2).mem_iff.mp hx
      have hy2 : y ∈ g2.2 := (sortCmp_perm _ g2.2).mem_iff.mp hy
      refine Or.inl ?_
      rw [hok' g1 hg1 x hx2, hok' g2 hg2 y hy2]
      exact hlt12
  exact ⟨hperm, h2, h3⟩
